import Mathlib

/-! ofxgo `detect-settings`: shallow embedding of `cmd/ofx/detect_settings.go`.

The command probes an OFX server with every combination of application id,
application version, spec version and indentation flag until one of them is
accepted.  The collaborators of the command (the version parser
`ofxgo.NewOfxVersion`, the UID generator `ofxgo.RandomUID` and the network call
`client.Request`) are parameters of the model: an `Oracle` answers each call
from the history of the run so far.  Every effect of the command is appended
to a trace of events, and `os.Exit` is an explicit result.
-/

set_option maxRecDepth 100000

namespace Ofx

/-! ## Data model -/

/-- Token returned by `ofxgo.NewOfxVersion` for a spec version string. -/
abbrev OfxVersion := Nat

/-- Value of type `ofxgo.UID` (a string type in the library). -/
abbrev UID := String

/-- Outcome of a library call that returns a value together with a Go `error`:
`ok v` when the error is nil, `err msg` with the error text otherwise. -/
inductive Res (α : Type) where
  | ok (v : α)
  | err (msg : String)
  deriving DecidableEq, Repr

/-- Fields of `ofxgo.BasicClient` that `tryProfile` fills in. -/
structure BasicClient where
  AppID : String
  AppVer : String
  SpecVersion : OfxVersion
  NoIndent : Bool
  deriving DecidableEq, Repr

/-- Client built by `ofxgo.GetClient(serverURL, &ofxgo.BasicClient ...)`: the URL
it was built for and the basic client it wraps. -/
structure Client where
  URL : String
  basic : BasicClient
  deriving DecidableEq, Repr

/-- The `Signon` part of `ofxgo.Request`, fields written by `tryProfile`. -/
structure SignonRequest where
  ClientUID : UID
  UserID : String
  UserPass : String
  Org : String
  Fid : String
  deriving DecidableEq, Repr

/-- Value of `ofxgo.ProfileRequest`; `DtProfUp` is kept as seconds since the epoch. -/
structure ProfileRequest where
  TrnUID : UID
  DtProfUp : Int
  deriving DecidableEq, Repr

/-- Value of `ofxgo.Request`, fields written by `tryProfile`. -/
structure Request where
  URL : String
  Signon : SignonRequest
  Prof : List ProfileRequest
  deriving DecidableEq, Repr

/-- Zero value of `ofxgo.Request` (`var query ofxgo.Request`). -/
def Request.zero : Request :=
  { URL := "", Signon := { ClientUID := "", UserID := "", UserPass := "", Org := "", Fid := "" },
    Prof := [] }

/-- One observable step of a run. `tryProfile` marks the entry into
`tryProfile` with its four arguments; the other events are the calls to the
collaborators with their answers, the text written to standard output, and the
argument of `time.Sleep` in nanoseconds. -/
inductive Event where
  | tryProfile (appID appVer version : String) (noindent : Bool)
  | newOfxVersion (version : String) (res : Res OfxVersion)
  | randomUID (res : Res UID)
  | request (client : Client) (query : Request) (ok : Bool)
  | print (text : String)
  | sleep (ns : Int)
  deriving DecidableEq, Repr

/-- Behaviour of the collaborators. Each answer may depend on the whole history
of the run. `request` answers `true` exactly when `client.Request` returns a nil
error; the collaborator reads the query it is given. -/
structure Oracle where
  newOfxVersion : List Event → String → Res OfxVersion
  randomUID : List Event → Res UID
  request : List Event → Client → Request → Bool

/-- Package-level variables of `cmd/ofx` read by the command: the flag-bound
variables and the three catalogs. -/
structure Globals where
  serverURL : String
  username : String
  password : String
  org : String
  fid : String
  clientUID : String
  delay : Nat
  appIDs : List String
  appVersions : List (String × List String)
  versions : List String
  deriving DecidableEq, Repr

/-- Program state: the package-level variables and the trace of the run so far. -/
structure State where
  globals : Globals
  trace : List Event
  deriving DecidableEq, Repr

/-- Append one event to the trace. -/
def State.emit (s : State) (e : Event) : State :=
  { s with trace := s.trace ++ [e] }

/-- Result of running a piece of the command: it returned `val`, or it called
`os.Exit(code)`. Both carry the state reached. -/
inductive Result (α : Type) where
  | ret (val : α) (s : State)
  | exit (code : Nat) (s : State)
  deriving DecidableEq, Repr

/-- State reached at the end of a result. -/
def Result.state {α : Type} : Result α → State
  | .ret _ s => s
  | .exit _ s => s

/-! ## Catalogs (initial values of the package-level variables) -/

/-- Initial value of `appIDs`. -/
def appIDs : List String := ["OFXGO", "QWIN", "QMOFX", "QB", "Money"]

/-- Initial value of the map `appVersions`, as its list of key and value pairs. -/
def appVersions : List (String × List String) :=
  [ ("OFXGO", ["0001"]),
    ("QWIN", ["2600", "2500", "2400", "2300", "2200", "2100", "2000", "1900", "1800",
              "1700", "1600", "1500", "1400"]),
    ("QMOFX", ["1700", "1600", "1500", "1400"]),
    ("QB", ["1800", "1700", "1600", "1500"]),
    ("Money", ["1600", "1500", "1400", "1200", "1100"]) ]

/-- Initial value of `versions`. -/
def versions : List String :=
  ["203", "103", "200", "201", "202", "210", "211", "102", "151", "160", "220"]

/-- Map lookup `m[key]` of Go: the value stored under the key, the nil slice when
the key is absent. -/
def mapIndex (m : List (String × List String)) (key : String) : List String :=
  match m.lookup key with
  | some vs => vs
  | none => []

/-- The constant `anonymous`. -/
def anonymous : String := "anonymous00000000000000000000000"

/-- Package-level variables at the start of the command, for given flag values. -/
def Globals.startup (serverURL username password org fid clientUID : String) (delay : Nat) :
    Globals :=
  { serverURL := serverURL, username := username, password := password, org := org, fid := fid,
    clientUID := clientUID, delay := delay,
    appIDs := Ofx.appIDs, appVersions := Ofx.appVersions, versions := Ofx.versions }

/-- State at the start of the command: nothing has happened yet. -/
def State.init (g : Globals) : State := { globals := g, trace := [] }

/-! ## Machine arithmetic -/

/-- Reinterpretation of a value modulo `2^64` as a signed 64-bit integer. -/
def toInt64 (n : Nat) : Int :=
  if n % 2 ^ 64 < 2 ^ 63 then ((n % 2 ^ 64 : Nat) : Int) else ((n % 2 ^ 64 : Nat) : Int) - 2 ^ 64

/-- Value of `time.Duration(delay) * time.Millisecond` in nanoseconds: the
conversion and the product are both taken in `int64`. -/
def sleepDuration (delay : Nat) : Int := toInt64 (delay % 2 ^ 64 * 1000000)

/-- Increment of a variable of type `uint` (64 bits wide). -/
def uintSucc (n : Nat) : Nat := (n + 1) % 2 ^ 64

/-! ## The program -/

/-- Embedding of `tryProfile`. -/
def tryProfile (o : Oracle) (appID appVer version : String) (noindent : Bool) (s : State) :
    Result Bool :=
  let s := s.emit (.tryProfile appID appVer version noindent)
  match o.newOfxVersion s.trace version with
  | .err msg =>
    let s := s.emit (.newOfxVersion version (.err msg))
    let s := s.emit (.print ("Error creating new OfxVersion enum: " ++ msg ++ "\n"))
    .exit 1 s
  | .ok ver =>
    let s := s.emit (.newOfxVersion version (.ok ver))
    let client : Client :=
      { URL := s.globals.serverURL,
        basic := { AppID := appID, AppVer := appVer, SpecVersion := ver, NoIndent := noindent } }
    let query : Request := Request.zero
    let query := { query with URL := s.globals.serverURL }
    let query := { query with Signon := { query.Signon with ClientUID := s.globals.clientUID } }
    let query := { query with Signon := { query.Signon with UserID := s.globals.username } }
    let query := { query with Signon := { query.Signon with UserPass := s.globals.password } }
    let query := { query with Signon := { query.Signon with Org := s.globals.org } }
    let query := { query with Signon := { query.Signon with Fid := s.globals.fid } }
    match o.randomUID s.trace with
    | .err msg =>
      let s := s.emit (.randomUID (.err msg))
      let s := s.emit (.print ("Error creating uid for transaction: " ++ msg ++ "\n"))
      .exit 1 s
    | .ok uid =>
      let s := s.emit (.randomUID (.ok uid))
      let profileRequest : ProfileRequest := { TrnUID := uid, DtProfUp := 0 }
      let query := { query with Prof := query.Prof ++ [profileRequest] }
      let ok := o.request s.trace client query
      let s := s.emit (.request client query ok)
      if ok then .ret true s
      else
        let query := { query with Signon := { query.Signon with UserID := anonymous } }
        let query := { query with Signon := { query.Signon with UserPass := anonymous } }
        let ok := o.request s.trace client query
        let s := s.emit (.request client query ok)
        .ret ok s

/-- The text printed by the `else` branch of `detectSettings`. -/
def failureLine (attempts : Nat) (appID appVer version : String) (noIndent : Bool)
    (delay : Nat) : String :=
  let noIndentString := if noIndent then " noindent" else ""
  "Attempt " ++ toString attempts ++ " failed (" ++ appID ++ " " ++ appVer ++ " " ++ version
    ++ noIndentString ++ "), trying again after " ++ toString delay ++ "ms...\n"

/-- Body of the innermost loop of `detectSettings`; the value returned is the
counter `attempts` for the next iteration. -/
def loopBody (o : Oracle) (appID appVer version : String) (noIndent : Bool) (attempts : Nat)
    (s : State) : Result Nat :=
  match tryProfile o appID appVer version noIndent s with
  | .exit code s => .exit code s
  | .ret true s =>
    let s := s.emit (.print "The following settings were found to work:\n")
    let s := s.emit (.print ("AppID: " ++ appID ++ "\n"))
    let s := s.emit (.print ("AppVer: " ++ appVer ++ "\n"))
    let s := s.emit (.print ("OFX Version: " ++ version ++ "\n"))
    let s := s.emit (.print ("noindent: " ++ toString noIndent ++ "\n"))
    .exit 0 s
  | .ret false s =>
    let attempts := uintSucc attempts
    let s := s.emit (.print (failureLine attempts appID appVer version noIndent s.globals.delay))
    let s := s.emit (.sleep (sleepDuration s.globals.delay))
    .ret attempts s

/-- Go `for _, x := range xs` whose body may leave the program: the body runs on
each element in order, threading the counter and the state. -/
def forRange {α : Type} (body : α → Nat → State → Result Nat) :
    List α → Nat → State → Result Nat
  | [], attempts, s => .ret attempts s
  | x :: xs, attempts, s =>
    match body x attempts s with
    | .exit code s => .exit code s
    | .ret attempts s => forRange body xs attempts s

/-- The four nested loops of `detectSettings`, started with a given counter. -/
def detectLoops (o : Oracle) (attempts : Nat) (s : State) : Result Nat :=
  forRange (fun appID attempts s =>
    forRange (fun appVer attempts s =>
      forRange (fun version attempts s =>
        forRange (fun noIndent attempts s =>
          loopBody o appID appVer version noIndent attempts s)
          [false, true] attempts s)
        s.globals.versions attempts s)
      (mapIndex s.globals.appVersions appID) attempts s)
    s.globals.appIDs attempts s

/-- Embedding of `detectSettings`. -/
def detectSettings (o : Oracle) (s : State) : Result Unit :=
  match detectLoops o 0 s with
  | .exit code s => .exit code s
  | .ret _ s => .ret () s

/-! ## Vocabulary for statements about runs -/

/-- The four arguments of one call of `tryProfile`. -/
structure Candidate where
  appID : String
  appVer : String
  version : String
  noIndent : Bool
  deriving DecidableEq, Repr

/-- Nested enumeration of the catalogs: `appIDs` in listed order (outermost), then
`appVersions[appID]` in listed order, then `versions` in listed order, then the
flag in the order `false`, `true`. -/
def enumerate (g : Globals) : List Candidate :=
  g.appIDs.flatMap fun appID =>
    (mapIndex g.appVersions appID).flatMap fun appVer =>
      g.versions.flatMap fun version =>
        [false, true].map fun noIndent =>
          { appID := appID, appVer := appVer, version := version, noIndent := noIndent }

/-- The loop body of `detectSettings` on a candidate. -/
def candBody (o : Oracle) (c : Candidate) (attempts : Nat) (s : State) : Result Nat :=
  loopBody o c.appID c.appVer c.version c.noIndent attempts s

/-- The `tryProfile` entry event of a candidate. -/
def Candidate.call (c : Candidate) : Event :=
  .tryProfile c.appID c.appVer c.version c.noIndent

/-- Candidates passed to `tryProfile`, in the order of the calls. -/
def callsOf : List Event → List Candidate
  | [] => []
  | .tryProfile a v ver b :: es =>
    { appID := a, appVer := v, version := ver, noIndent := b } :: callsOf es
  | _ :: es => callsOf es

/-- Requests issued, in order: client, query and whether the error was nil. -/
def requestsOf : List Event → List (Client × Request × Bool)
  | [] => []
  | .request cl q ok :: es => (cl, q, ok) :: requestsOf es
  | _ :: es => requestsOf es

/-- Arguments of the calls of `time.Sleep`, in order. -/
def sleepsOf : List Event → List Int
  | [] => []
  | .sleep d :: es => d :: sleepsOf es
  | _ :: es => sleepsOf es

/-- Texts written to standard output, in order. -/
def printsOf : List Event → List String
  | [] => []
  | .print t :: es => t :: printsOf es
  | _ :: es => printsOf es

/-- The client `tryProfile` builds for a candidate whose version string parsed to `ver`. -/
def clientOf (g : Globals) (c : Candidate) (ver : OfxVersion) : Client :=
  { URL := g.serverURL,
    basic := { AppID := c.appID, AppVer := c.appVer, SpecVersion := ver, NoIndent := c.noIndent } }

/-- The query of the first request of `tryProfile`, for transaction UID `uid`. -/
def primaryQuery (g : Globals) (uid : UID) : Request :=
  { URL := g.serverURL,
    Signon := { ClientUID := g.clientUID, UserID := g.username, UserPass := g.password,
                Org := g.org, Fid := g.fid },
    Prof := [{ TrnUID := uid, DtProfUp := 0 }] }

/-- The query of the second request of `tryProfile`, for transaction UID `uid`. -/
def anonymousQuery (g : Globals) (uid : UID) : Request :=
  { URL := g.serverURL,
    Signon := { ClientUID := g.clientUID, UserID := anonymous, UserPass := anonymous,
                Org := g.org, Fid := g.fid },
    Prof := [{ TrnUID := uid, DtProfUp := 0 }] }

/-- Events of `tryProfile` up to the first request, when parsing gave `ver` and
UID generation gave `uid`. -/
def entryEvents (c : Candidate) (ver : OfxVersion) (uid : UID) : List Event :=
  [c.call, .newOfxVersion c.version (.ok ver), .randomUID (.ok uid)]

/-- The five lines of the success report, as print events. -/
def successReport (c : Candidate) : List Event :=
  [.print "The following settings were found to work:\n",
   .print ("AppID: " ++ c.appID ++ "\n"),
   .print ("AppVer: " ++ c.appVer ++ "\n"),
   .print ("OFX Version: " ++ c.version ++ "\n"),
   .print ("noindent: " ++ toString c.noIndent ++ "\n")]

/-- A candidate whose two requests both failed, with the parsed version and the
UID it was tried with. -/
structure Failed where
  cand : Candidate
  ver : OfxVersion
  uid : UID
  deriving DecidableEq, Repr

/-- All events of a candidate whose two requests failed and which became failed
attempt number `n`: entry, both requests, the failure line and the sleep. -/
def Failed.events (g : Globals) (n : Nat) (f : Failed) : List Event :=
  entryEvents f.cand f.ver f.uid ++
  [.request (clientOf g f.cand f.ver) (primaryQuery g f.uid) false,
   .request (clientOf g f.cand f.ver) (anonymousQuery g f.uid) false,
   .print (failureLine n f.cand.appID f.cand.appVer f.cand.version f.cand.noIndent g.delay),
   .sleep (sleepDuration g.delay)]

/-- Events of a sequence of exhausted candidates, the counter being `n` before
the first of them. -/
def failedTrace (g : Globals) : Nat → List Failed → List Event
  | _, [] => []
  | n, f :: fs => f.events g (uintSucc n) ++ failedTrace g (uintSucc n) fs

/-- How the last candidate of a run stopped the run. -/
inductive Stop where
  | badVersion (msg : String)
  | badUID (ver : OfxVersion) (msg : String)
  | primary (ver : OfxVersion) (uid : UID)
  | anonymous (ver : OfxVersion) (uid : UID)
  deriving DecidableEq, Repr

/-- Events of the candidate that stopped the run. -/
def Stop.events (g : Globals) (c : Candidate) : Stop → List Event
  | .badVersion msg =>
    [c.call, .newOfxVersion c.version (.err msg),
     .print ("Error creating new OfxVersion enum: " ++ msg ++ "\n")]
  | .badUID ver msg =>
    [c.call, .newOfxVersion c.version (.ok ver), .randomUID (.err msg),
     .print ("Error creating uid for transaction: " ++ msg ++ "\n")]
  | .primary ver uid =>
    entryEvents c ver uid ++ [.request (clientOf g c ver) (primaryQuery g uid) true]
      ++ successReport c
  | .anonymous ver uid =>
    entryEvents c ver uid ++
      [.request (clientOf g c ver) (primaryQuery g uid) false,
       .request (clientOf g c ver) (anonymousQuery g uid) true]
      ++ successReport c

/-- Exit status of the candidate that stopped the run. -/
def Stop.code : Stop → Nat
  | .badVersion _ => 1
  | .badUID _ _ => 1
  | .primary _ _ => 0
  | .anonymous _ _ => 0

/-- Events of `tryProfile` alone for the candidate that stopped the run. -/
def Stop.tryEvents (g : Globals) (c : Candidate) : Stop → List Event
  | .badVersion msg => Stop.events g c (.badVersion msg)
  | .badUID ver msg => Stop.events g c (.badUID ver msg)
  | .primary ver uid =>
    entryEvents c ver uid ++ [.request (clientOf g c ver) (primaryQuery g uid) true]
  | .anonymous ver uid =>
    entryEvents c ver uid ++
      [.request (clientOf g c ver) (primaryQuery g uid) false,
       .request (clientOf g c ver) (anonymousQuery g uid) true]

/-- Result of `tryProfile` for the candidate that stopped the run. -/
def Stop.tryResult : Stop → State → Result Bool
  | .badVersion _, s => .exit 1 s
  | .badUID _ _, s => .exit 1 s
  | .primary _ _, s => .ret true s
  | .anonymous _ _, s => .ret true s

/-- Events of `tryProfile` alone for a candidate whose two requests failed. -/
def Failed.tryEvents (g : Globals) (f : Failed) : List Event :=
  entryEvents f.cand f.ver f.uid ++
  [.request (clientOf g f.cand f.ver) (primaryQuery g f.uid) false,
   .request (clientOf g f.cand f.ver) (anonymousQuery g f.uid) false]

/-- Description of a run of the loops: the candidates that were exhausted, in
order, and the candidate that stopped the run, if any. -/
structure RunLog where
  failed : List Failed
  last : Option (Candidate × Stop)
  deriving DecidableEq, Repr

/-- Events of a described run, the counter being `n` at its start. -/
def RunLog.events (g : Globals) (n : Nat) (r : RunLog) : List Event :=
  failedTrace g n r.failed ++
    match r.last with
    | none => []
    | some (c, st) => st.events g c

/-- Candidates of a described run, in order. -/
def RunLog.cands (r : RunLog) : List Candidate :=
  r.failed.map Failed.cand ++
    match r.last with
    | none => []
    | some (c, _) => [c]

/-- The counter after `k` increments from `n`. -/
def bump : Nat → Nat → Nat
  | 0, n => n
  | k + 1, n => bump k (uintSucc n)

/-- Result of the loops for a described run started with counter `n`. -/
def RunLog.result (r : RunLog) (n : Nat) (s : State) : Result Nat :=
  match r.last with
  | none => .ret (bump r.failed.length n) s
  | some (_, st) => .exit st.code s

/-- Flag values of an example run against the shipped catalogs. -/
def exampleGlobals : Globals :=
  Globals.startup "https://ofx.example.com/ofx" "alice" "secret" "ORG" "1234" "" 500

/-- A server that accepts a request exactly when the client does not indent; the
parser accepts every version string and UID generation always succeeds. -/
def noIndentServer : Oracle :=
  { newOfxVersion := fun _ v => .ok v.length,
    randomUID := fun _ => .ok "5b7f9c1e",
    request := fun _ cl _ => cl.basic.NoIndent }

/-- A run in which UID generation fails (no entropy available); the parser
accepts every version string and the server would accept every request. -/
def noEntropy : Oracle :=
  { newOfxVersion := fun _ v => .ok v.length,
    randomUID := fun _ => .err "unexpected EOF",
    request := fun _ _ _ => true }

/-- A server that rejects every request; the parser accepts every version
string and UID generation always succeeds. -/
def rejectingServer : Oracle :=
  { newOfxVersion := fun _ v => .ok v.length,
    randomUID := fun _ => .ok "5b7f9c1e",
    request := fun _ _ _ => false }

/-- Number of candidates of a trace whose second request failed, that is, whose
two requests both failed: a second request is one that directly follows
another request. -/
def exhaustedOf : List Event → Nat
  | .request _ _ _ :: .request _ _ ok :: es => (if ok then 0 else 1) + exhaustedOf es
  | _ :: es => exhaustedOf es
  | [] => 0

/-- Exit status of a result that left through `os.Exit`. -/
def Result.exitCode? {α : Type} : Result α → Option Nat
  | .ret _ _ => none
  | .exit code _ => some code

/-- A parser that accepts exactly the shipped version strings, with a server
that rejects every request; UID generation always succeeds. -/
def strictParser : Oracle :=
  { newOfxVersion := fun _ v =>
      if versions.contains v then .ok v.length else .err ("Invalid OfxVersion: " ++ v),
    randomUID := fun _ => .ok "5b7f9c1e",
    request := fun _ _ _ => false }

/-- The example flag values with a spec-version catalog whose second entry is
not a version string. -/
def badCatalogGlobals : Globals :=
  { exampleGlobals with versions := ["203", "bogus"] }

/-- The example flag values with a spec-version catalog whose first entry is not
a version string. -/
def badFirstGlobals : Globals :=
  { exampleGlobals with versions := ["bogus", "203"] }

/-- The event records a failed version parse or a failed UID generation. -/
def Event.isFatal : Event → Bool
  | .newOfxVersion _ (.err _) => true
  | .randomUID (.err _) => true
  | _ => false

/-- Relation between two consecutive events: a request that directly follows a
UID generation carries the flag values of `g`, in particular the primary
credentials. -/
def FirstRequestPrimary (g : Globals) (a b : Event) : Prop :=
  ∀ (res : Res UID) (cl : Client) (q : Request) (ok : Bool),
    a = .randomUID res → b = .request cl q ok →
    q.URL = g.serverURL ∧ q.Signon.UserID = g.username ∧ q.Signon.UserPass = g.password ∧
      q.Signon.Org = g.org ∧ q.Signon.Fid = g.fid ∧ q.Signon.ClientUID = g.clientUID

/-- Value of a sequence of decimal digits read after the value `acc`; `none` when
a character is not a digit. -/
def digitsValue : List Char → Nat → Option Nat
  | [], acc => some acc
  | ch :: cs, acc =>
    if ch.isDigit then digitsValue cs (10 * acc + (ch.toNat - 48)) else none

/-- A version string read as a decimal integer; `none` when it is empty or has a
character that is not a digit. -/
def readDecimal (s : String) : Option Nat :=
  match s.data with
  | [] => none
  | cs => digitsValue cs 0

/-- Failure lines of a trace, in order: the texts printed directly before a
sleep. -/
def failureLinesOf : List Event → List String
  | .print t :: .sleep _ :: es => t :: failureLinesOf es
  | _ :: es => failureLinesOf es
  | [] => []

/-- Failure lines of a sequence of exhausted candidates, the counter being `n`
before the first of them. -/
def failureLinesFrom (g : Globals) : Nat → List Candidate → List String
  | _, [] => []
  | n, c :: cs =>
    failureLine (uintSucc n) c.appID c.appVer c.version c.noIndent g.delay ::
      failureLinesFrom g (uintSucc n) cs

/-- Run of the command on the shipped catalogs, for given flag values. -/
def shippedRun (o : Oracle) (serverURL username password org fid clientUID : String)
    (delay : Nat) : Result Unit :=
  detectSettings o
    (State.init (Globals.startup serverURL username password org fid clientUID delay))

/-- A loop body leaves the package-level variables as they are. -/
def Preserves {α : Type} (body : α → Nat → State → Result Nat) : Prop :=
  ∀ x n s, (body x n s).state.globals = s.globals

/-! ## Basic facts -/

theorem forRange_cons {α : Type} (body : α → Nat → State → Result Nat) (x : α) (xs : List α)
    (n : Nat) (s : State) :
    forRange body (x :: xs) n s =
      match body x n s with
      | .exit code t => .exit code t
      | .ret m t => forRange body xs m t := rfl

theorem forRange_append {α : Type} (body : α → Nat → State → Result Nat) (xs ys : List α) :
    ∀ n s, forRange body (xs ++ ys) n s =
      match forRange body xs n s with
      | .exit code t => .exit code t
      | .ret m t => forRange body ys m t := by
  induction xs with
  | nil => intro n s; simp [forRange]
  | cons x xs ih =>
    intro n s
    simp only [List.cons_append, forRange]
    cases body x n s with
    | exit code t => rfl
    | ret m t => exact ih m t

theorem forRange_flatMap {α β : Type} (body : β → Nat → State → Result Nat) (f : α → List β)
    (xs : List α) :
    ∀ n s, forRange body (xs.flatMap f) n s = forRange (fun x => forRange body (f x)) xs n s := by
  induction xs with
  | nil => intro n s; simp [forRange]
  | cons x xs ih =>
    intro n s
    simp only [List.flatMap_cons, forRange_append, forRange]
    cases forRange body (f x) n s with
    | exit code t => rfl
    | ret m t => exact ih m t

theorem forRange_map {α β : Type} (body : β → Nat → State → Result Nat) (f : α → β)
    (xs : List α) :
    ∀ n s, forRange body (xs.map f) n s = forRange (fun x => body (f x)) xs n s := by
  induction xs with
  | nil => intro n s; simp [forRange]
  | cons x xs ih =>
    intro n s
    simp only [List.map_cons, forRange]
    cases body (f x) n s with
    | exit code t => rfl
    | ret m t => exact ih m t

theorem forRange_flatMap_fun {α β : Type} (body : β → Nat → State → Result Nat)
    (f : α → List β) (xs : List α) :
    forRange body (xs.flatMap f) = forRange (fun x => forRange body (f x)) xs := by
  funext n s
  exact forRange_flatMap body f xs n s

theorem forRange_map_fun {α β : Type} (body : β → Nat → State → Result Nat) (f : α → β)
    (xs : List α) :
    forRange body (xs.map f) = forRange (fun x => body (f x)) xs := by
  funext n s
  exact forRange_map body f xs n s

theorem forRange_preserves {α : Type} (body : α → Nat → State → Result Nat)
    (h : Preserves body) (xs : List α) :
    ∀ n s, (forRange body xs n s).state.globals = s.globals := by
  induction xs with
  | nil => intro n s; rfl
  | cons x xs ih =>
    intro n s
    have hx := h x n s
    simp only [forRange]
    cases hb : body x n s with
    | exit code t => rw [hb] at hx; exact hx
    | ret m t =>
      rw [hb] at hx
      simp only [Result.state] at hx
      rw [ih m t, hx]

theorem forRange_congr {α : Type} (b1 b2 : α → Nat → State → Result Nat) (g : Globals)
    (h : ∀ x n s, s.globals = g → b1 x n s = b2 x n s) (h2 : Preserves b2) (xs : List α) :
    ∀ n s, s.globals = g → forRange b1 xs n s = forRange b2 xs n s := by
  induction xs with
  | nil => intro n s _; rfl
  | cons x xs ih =>
    intro n s hs
    have hx := h2 x n s
    simp only [forRange, h x n s hs]
    cases hb : b2 x n s with
    | exit code t => rfl
    | ret m t =>
      rw [hb] at hx
      simp only [Result.state] at hx
      exact ih m t (hx.trans hs)

theorem tryProfile_eq (o : Oracle) (c : Candidate) (s : State) :
    tryProfile o c.appID c.appVer c.version c.noIndent s =
      match o.newOfxVersion (s.trace ++ [c.call]) c.version with
      | .err msg => .exit 1 ⟨s.globals, s.trace ++ Stop.events s.globals c (.badVersion msg)⟩
      | .ok ver =>
        match o.randomUID (s.trace ++ [c.call, .newOfxVersion c.version (.ok ver)]) with
        | .err msg => .exit 1 ⟨s.globals, s.trace ++ Stop.events s.globals c (.badUID ver msg)⟩
        | .ok uid =>
          if o.request (s.trace ++ entryEvents c ver uid) (clientOf s.globals c ver)
              (primaryQuery s.globals uid) then
            .ret true ⟨s.globals, s.trace ++ (entryEvents c ver uid ++
              [.request (clientOf s.globals c ver) (primaryQuery s.globals uid) true])⟩
          else
            .ret (o.request (s.trace ++ (entryEvents c ver uid ++
                [.request (clientOf s.globals c ver) (primaryQuery s.globals uid) false]))
                (clientOf s.globals c ver) (anonymousQuery s.globals uid))
              ⟨s.globals, s.trace ++ (entryEvents c ver uid ++
                [.request (clientOf s.globals c ver) (primaryQuery s.globals uid) false,
                 .request (clientOf s.globals c ver) (anonymousQuery s.globals uid)
                   (o.request (s.trace ++ (entryEvents c ver uid ++
                     [.request (clientOf s.globals c ver) (primaryQuery s.globals uid) false]))
                     (clientOf s.globals c ver) (anonymousQuery s.globals uid))])⟩ := by
  unfold tryProfile
  simp only [State.emit, Candidate.call, Stop.events, entryEvents, clientOf, primaryQuery,
    anonymousQuery, Request.zero, List.append_assoc, List.singleton_append, List.nil_append,
    List.cons_append]
  cases h1 : o.newOfxVersion (s.trace ++ [Event.tryProfile c.appID c.appVer c.version c.noIndent])
      c.version with
  | err msg => simp
  | ok ver =>
    simp only
    cases h2 : o.randomUID (s.trace ++ [Event.tryProfile c.appID c.appVer c.version c.noIndent,
        Event.newOfxVersion c.version (Res.ok ver)]) with
    | err msg => simp
    | ok uid =>
      simp only
      split <;> simp_all

/-- One iteration of the loop body: either the candidate stops the run, or both
of its requests failed and the loop goes on with the counter incremented. -/
theorem candBody_step (o : Oracle) (c : Candidate) (n : Nat) (s : State) :
    (∃ st : Stop,
        tryProfile o c.appID c.appVer c.version c.noIndent s =
          st.tryResult ⟨s.globals, s.trace ++ st.tryEvents s.globals c⟩ ∧
        candBody o c n s = .exit st.code ⟨s.globals, s.trace ++ st.events s.globals c⟩) ∨
    (∃ ver uid,
        tryProfile o c.appID c.appVer c.version c.noIndent s =
          .ret false ⟨s.globals, s.trace ++ Failed.tryEvents s.globals ⟨c, ver, uid⟩⟩ ∧
        candBody o c n s =
          .ret (uintSucc n)
            ⟨s.globals, s.trace ++ Failed.events s.globals (uintSucc n) ⟨c, ver, uid⟩⟩) := by
  unfold candBody loopBody
  rw [tryProfile_eq]
  cases h1 : o.newOfxVersion (s.trace ++ [c.call]) c.version with
  | err msg => exact Or.inl ⟨.badVersion msg, by simp [Stop.tryResult, Stop.tryEvents, Stop.code]⟩
  | ok ver =>
    simp only
    cases h2 : o.randomUID (s.trace ++ [c.call, .newOfxVersion c.version (.ok ver)]) with
    | err msg =>
      exact Or.inl ⟨.badUID ver msg, by simp [Stop.tryResult, Stop.tryEvents, Stop.code]⟩
    | ok uid =>
      simp only
      by_cases h3 : o.request (s.trace ++ entryEvents c ver uid) (clientOf s.globals c ver)
          (primaryQuery s.globals uid) = true
      · refine Or.inl ⟨.primary ver uid, ?_⟩
        simp [h3, Stop.tryResult, Stop.tryEvents, Stop.code, Stop.events, State.emit,
          successReport]
      · by_cases h4 : o.request (s.trace ++ (entryEvents c ver uid ++
            [.request (clientOf s.globals c ver) (primaryQuery s.globals uid) false]))
            (clientOf s.globals c ver) (anonymousQuery s.globals uid) = true
        · refine Or.inl ⟨.anonymous ver uid, ?_⟩
          simp [h3, h4, Stop.tryResult, Stop.tryEvents, Stop.code, Stop.events, State.emit,
            successReport]
        · refine Or.inr ⟨ver, uid, ?_⟩
          simp [h3, h4, Failed.tryEvents, Failed.events, State.emit]

theorem candBody_preserves (o : Oracle) : Preserves (candBody o) := by
  intro c n s
  rcases candBody_step o c n s with ⟨st, _, h⟩ | ⟨ver, uid, _, h⟩ <;> rw [h] <;> rfl

/-- The four nested loops run the loop body over the enumeration, in order. -/
theorem detectLoops_eq (o : Oracle) (n : Nat) (s : State) :
    detectLoops o n s = forRange (candBody o) (enumerate s.globals) n s := by
  have hflag : ∀ a v ver, Preserves (fun (b : Bool) => loopBody o a v ver b) := by
    intro a v ver b m t
    exact candBody_preserves o ⟨a, v, ver, b⟩ m t
  have hver : ∀ a v, Preserves (fun (ver : String) =>
      forRange (fun (b : Bool) => loopBody o a v ver b) [false, true]) := by
    intro a v ver m t
    exact forRange_preserves _ (hflag a v ver) _ m t
  have happ : ∀ a (l : List String), Preserves (fun (v : String) =>
      forRange (fun (ver : String) =>
        forRange (fun (b : Bool) => loopBody o a v ver b) [false, true]) l) := by
    intro a l v m t
    exact forRange_preserves _ (hver a v) _ m t
  have hid : ∀ (l : String → List String) (l2 : List String), Preserves (fun (a : String) =>
      forRange (fun (v : String) => forRange (fun (ver : String) =>
        forRange (fun (b : Bool) => loopBody o a v ver b) [false, true]) l2) (l a)) := by
    intro l l2 a m t
    exact forRange_preserves _ (happ a l2) _ m t
  unfold detectLoops enumerate
  simp only [forRange_flatMap_fun, forRange_map_fun, candBody]
  refine forRange_congr _ _ s.globals ?_ (hid _ _) _ n s rfl
  intro a m t ht
  rw [ht]
  refine forRange_congr _ _ s.globals ?_ (happ a _) _ m t ht
  intro v m2 t2 ht2
  rw [ht2]


theorem bump_succ (k n : Nat) : bump (k + 1) n = bump k (uintSucc n) := rfl

/-- Shape of every run of the loop body over a list of candidates: some
candidates are exhausted one after the other, then either the list is used up or
one candidate stops the run. -/
theorem forRange_shape (o : Oracle) (cs : List Candidate) :
    ∀ n s, ∃ r : RunLog,
      forRange (candBody o) cs n s =
        r.result n ⟨s.globals, s.trace ++ r.events s.globals n⟩ ∧
      ∃ rest, cs = r.cands ++ rest ∧ (r.last = none → rest = []) := by
  induction cs with
  | nil =>
    intro n s
    exact ⟨⟨[], none⟩, by simp [forRange, RunLog.result, RunLog.events, failedTrace, bump],
      [], by simp [RunLog.cands], fun _ => rfl⟩
  | cons c cs ih =>
    intro n s
    rcases candBody_step o c n s with ⟨st, _, h⟩ | ⟨ver, uid, _, h⟩
    · refine ⟨⟨[], some (c, st)⟩, ?_, cs, by simp [RunLog.cands], by simp⟩
      simp [forRange, h, RunLog.result, RunLog.events, failedTrace]
    · obtain ⟨r, hr, rest, hcs, hrest⟩ :=
        ih (uintSucc n) ⟨s.globals, s.trace ++ Failed.events s.globals (uintSucc n) ⟨c, ver, uid⟩⟩
      refine ⟨⟨⟨c, ver, uid⟩ :: r.failed, r.last⟩, ?_, rest, ?_, hrest⟩
      · simp only [forRange, h, hr]
        cases hl : r.last with
        | none => simp [RunLog.result, RunLog.events, hl, failedTrace, bump_succ]
        | some p => simp [RunLog.result, RunLog.events, hl, failedTrace]
      · simp [RunLog.cands, hcs]

/-- Result of `detectSettings` for a described run. -/
theorem detectSettings_shape (o : Oracle) (s : State) :
    ∃ r : RunLog,
      detectSettings o s =
        (match r.last with
         | none => .ret () ⟨s.globals, s.trace ++ r.events s.globals 0⟩
         | some (_, st) => .exit st.code ⟨s.globals, s.trace ++ r.events s.globals 0⟩) ∧
      ∃ rest, enumerate s.globals = r.cands ++ rest ∧ (r.last = none → rest = []) := by
  obtain ⟨r, hr, hrest⟩ := forRange_shape o (enumerate s.globals) 0 s
  refine ⟨r, ?_, hrest⟩
  unfold detectSettings
  rw [detectLoops_eq, hr]
  cases hl : r.last with
  | none => simp [RunLog.result, hl]
  | some p => simp [RunLog.result, hl]

theorem callsOf_append (xs ys : List Event) : callsOf (xs ++ ys) = callsOf xs ++ callsOf ys := by
  induction xs with
  | nil => rfl
  | cons x xs ih => cases x <;> simp [callsOf, ih]

theorem printsOf_append (xs ys : List Event) :
    printsOf (xs ++ ys) = printsOf xs ++ printsOf ys := by
  induction xs with
  | nil => rfl
  | cons x xs ih => cases x <;> simp [printsOf, ih]

theorem sleepsOf_append (xs ys : List Event) :
    sleepsOf (xs ++ ys) = sleepsOf xs ++ sleepsOf ys := by
  induction xs with
  | nil => rfl
  | cons x xs ih => cases x <;> simp [sleepsOf, ih]

theorem requestsOf_append (xs ys : List Event) :
    requestsOf (xs ++ ys) = requestsOf xs ++ requestsOf ys := by
  induction xs with
  | nil => rfl
  | cons x xs ih => cases x <;> simp [requestsOf, ih]

theorem callsOf_failedEvents (g : Globals) (n : Nat) (f : Failed) :
    callsOf (f.events g n) = [f.cand] := by
  simp [Failed.events, entryEvents, Candidate.call, callsOf]

theorem callsOf_failedTrace (g : Globals) (fs : List Failed) :
    ∀ n, callsOf (failedTrace g n fs) = fs.map Failed.cand := by
  induction fs with
  | nil => intro n; rfl
  | cons f fs ih =>
    intro n
    simp [failedTrace, callsOf_append, callsOf_failedEvents, ih]

theorem callsOf_stopEvents (g : Globals) (c : Candidate) (st : Stop) :
    callsOf (st.events g c) = [c] := by
  cases st <;> simp [Stop.events, entryEvents, successReport, Candidate.call, callsOf]

theorem callsOf_runLog (g : Globals) (n : Nat) (r : RunLog) :
    callsOf (r.events g n) = r.cands := by
  unfold RunLog.events RunLog.cands
  rw [callsOf_append, callsOf_failedTrace]
  cases r.last with
  | none => rfl
  | some p => simp [callsOf_stopEvents]

/-! ## Order of the candidates -/

/-- C1: whatever the collaborators answer, the candidates passed to `tryProfile`
by `detectSettings`, in the order of the calls, form a prefix of the nested
enumeration of the catalogs (`appIDs` outermost, then `appVersions[appID]`, then
`versions`, then the flag `false` before `true`). -/
theorem detectSettings_calls_prefix (o : Oracle) (g : Globals) :
    callsOf (detectSettings o (State.init g)).state.trace <+: enumerate g := by
  obtain ⟨r, hr, rest, hcs, _⟩ := detectSettings_shape o (State.init g)
  have htr : (detectSettings o (State.init g)).state.trace = r.events g 0 := by
    rw [hr]
    cases r.last with
    | none => simp [Result.state, State.init]
    | some p => simp [Result.state, State.init]
  rw [htr, callsOf_runLog]
  exact ⟨rest, hcs.symm⟩

/-! ## First success wins -/

theorem split_at_index {α : Type} (l : List α) :
    ∀ (i : Nat) (c : α), l[i]? = some c → l = l.take i ++ c :: l.drop (i + 1) := by
  induction l with
  | nil => intro i c h; simp at h
  | cons x xs ih =>
    intro i c h
    cases i with
    | zero => simp at h; simp [h]
    | succ i =>
      simp only [List.getElem?_cons_succ] at h
      simpa using ih i c h

/-- A run of candidates on which `tryProfile` returns `false` exhausts each of
them and goes on with the rest of the list. -/
theorem forRange_fail_prefix (o : Oracle) (g : Globals) (pre rest : List Candidate)
    (hfail : ∀ c ∈ pre, ∀ s : State, s.globals = g →
      ∃ t, tryProfile o c.appID c.appVer c.version c.noIndent s = .ret false t) :
    ∀ n (s : State), s.globals = g →
      ∃ fs : List Failed, fs.map Failed.cand = pre ∧
        forRange (candBody o) (pre ++ rest) n s =
          forRange (candBody o) rest (bump pre.length n)
            ⟨g, s.trace ++ failedTrace g n fs⟩ := by
  induction pre with
  | nil =>
    intro n s hs
    refine ⟨[], rfl, ?_⟩
    cases s
    simp_all [failedTrace, bump]
  | cons c pre ih =>
    intro n s hs
    subst hs
    obtain ⟨t, ht⟩ := hfail c (List.mem_cons_self _ _) s rfl
    rcases candBody_step o c n s with ⟨st, h1, _⟩ | ⟨ver, uid, _, h⟩
    · rw [ht] at h1
      cases st <;> simp [Stop.tryResult] at h1
    · obtain ⟨fs, hfs, hrun⟩ :=
        ih (fun c' hc' => hfail c' (List.mem_cons_of_mem _ hc')) (uintSucc n)
          ⟨s.globals, s.trace ++ Failed.events s.globals (uintSucc n) ⟨c, ver, uid⟩⟩ rfl
      refine ⟨⟨c, ver, uid⟩ :: fs, by simp [hfs], ?_⟩
      rw [List.cons_append, forRange_cons, h]
      simp only
      rw [hrun]
      simp [failedTrace, bump_succ]

/-- A candidate on which `tryProfile` returns `true` stops the run with status 0
after its success report. -/
theorem candBody_success (o : Oracle) (c : Candidate) (n : Nat) (s : State)
    (h : ∃ t, tryProfile o c.appID c.appVer c.version c.noIndent s = .ret true t) :
    ∃ st : Stop, ((∃ ver uid, st = .primary ver uid) ∨ ∃ ver uid, st = .anonymous ver uid) ∧
      candBody o c n s = .exit 0 ⟨s.globals, s.trace ++ st.events s.globals c⟩ := by
  obtain ⟨t, ht⟩ := h
  rcases candBody_step o c n s with ⟨st, h1, h2⟩ | ⟨ver, uid, h1, _⟩
  · rw [ht] at h1
    cases st with
    | badVersion msg => simp [Stop.tryResult] at h1
    | badUID ver msg => simp [Stop.tryResult] at h1
    | primary ver uid => exact ⟨_, Or.inl ⟨ver, uid, rfl⟩, h2⟩
    | anonymous ver uid => exact ⟨_, Or.inr ⟨ver, uid, rfl⟩, h2⟩
  · rw [ht] at h1
    simp at h1

theorem forRange_first_success (o : Oracle) (g : Globals) (pre : List Candidate) (c : Candidate)
    (rest : List Candidate)
    (hfail : ∀ c' ∈ pre, ∀ s : State, s.globals = g →
      ∃ t, tryProfile o c'.appID c'.appVer c'.version c'.noIndent s = .ret false t)
    (hsucc : ∀ s : State, s.globals = g →
      ∃ t, tryProfile o c.appID c.appVer c.version c.noIndent s = .ret true t)
    (n : Nat) (s : State) (hs : s.globals = g) :
    ∃ (fs : List Failed) (st : Stop), fs.map Failed.cand = pre ∧
      ((∃ ver uid, st = .primary ver uid) ∨ ∃ ver uid, st = .anonymous ver uid) ∧
      forRange (candBody o) (pre ++ c :: rest) n s =
        .exit 0 ⟨g, s.trace ++ (failedTrace g n fs ++ st.events g c)⟩ := by
  obtain ⟨fs, hfs, hrun⟩ := forRange_fail_prefix o g pre (c :: rest) hfail n s hs
  obtain ⟨st, hst, hbody⟩ :=
    candBody_success o c (bump pre.length n) ⟨g, s.trace ++ failedTrace g n fs⟩ (hsucc _ rfl)
  refine ⟨fs, st, hfs, hst, ?_⟩
  rw [hrun]
  simp [forRange, hbody]

theorem sleepsOf_failedTrace (g : Globals) (fs : List Failed) :
    ∀ n, sleepsOf (failedTrace g n fs) = List.replicate fs.length (sleepDuration g.delay) := by
  induction fs with
  | nil => intro n; rfl
  | cons f fs ih =>
    intro n
    simp [failedTrace, sleepsOf_append, ih, Failed.events, entryEvents, Candidate.call, sleepsOf,
      List.replicate_succ]

theorem sleepsOf_stopEvents (g : Globals) (c : Candidate) (st : Stop) :
    sleepsOf (st.events g c) = [] := by
  cases st <;> simp [Stop.events, entryEvents, successReport, Candidate.call, sleepsOf]

theorem printsOf_failedTrace_length (g : Globals) (fs : List Failed) :
    ∀ n, (printsOf (failedTrace g n fs)).length = fs.length := by
  induction fs with
  | nil => intro n; rfl
  | cons f fs ih =>
    intro n
    simp [failedTrace, printsOf_append, ih, Failed.events, entryEvents, Candidate.call, printsOf]

theorem requestsOf_failedTrace_length (g : Globals) (fs : List Failed) :
    ∀ n, (requestsOf (failedTrace g n fs)).length = 2 * fs.length := by
  induction fs with
  | nil => intro n; rfl
  | cons f fs ih =>
    intro n
    simp [failedTrace, requestsOf_append, ih, Failed.events, entryEvents, Candidate.call,
      requestsOf]
    omega

theorem requestsOf_failedTrace_failed (g : Globals) (fs : List Failed) :
    ∀ n, ∀ x ∈ requestsOf (failedTrace g n fs), x.2.2 = false := by
  induction fs with
  | nil => intro n x hx; simp [failedTrace, requestsOf] at hx
  | cons f fs ih =>
    intro n x hx
    simp only [failedTrace, requestsOf_append, List.mem_append] at hx
    rcases hx with hx | hx
    · simp [Failed.events, entryEvents, Candidate.call, requestsOf] at hx
      rcases hx with rfl | rfl <;> rfl
    · exact ih _ x hx

/-- Under `noIndentServer`, `tryProfile` returns the flag of the candidate. -/
theorem noIndentServer_verdict (c : Candidate) (s : State) :
    ∃ t, tryProfile noIndentServer c.appID c.appVer c.version c.noIndent s =
      .ret c.noIndent t := by
  rw [tryProfile_eq]
  cases h : c.noIndent <;> simp [noIndentServer, clientOf, h]

theorem detectSettings_eq (o : Oracle) (g : Globals) :
    detectSettings o (State.init g) =
      match forRange (candBody o) (enumerate g) 0 (State.init g) with
      | .exit code s => .exit code s
      | .ret _ s => .ret () s := by
  unfold detectSettings
  rw [detectLoops_eq]
  rfl

theorem detectSettings_of_loops (o : Oracle) (s t : State) (code n : Nat)
    (h : forRange (candBody o) (enumerate s.globals) n s = .exit code t) (hn : n = 0) :
    detectSettings o s = .exit code t := by
  subst hn
  unfold detectSettings
  rw [detectLoops_eq, h]

/-- C2: when the collaborators make `tryProfile` return `good c` on every
candidate `c` of the enumeration (so version parsing and UID generation succeed)
and some candidate is good, `detectSettings` ends with `os.Exit(0)` and the last
five lines it printed are the success report of the first good candidate of the
enumeration. -/
theorem detectSettings_first_success (o : Oracle) (g : Globals) (good : Candidate → Bool)
    (c : Candidate)
    (hgood : ∀ c' ∈ enumerate g, ∀ s : State, s.globals = g →
      ∃ t, tryProfile o c'.appID c'.appVer c'.version c'.noIndent s = .ret (good c') t)
    (hfirst : (enumerate g).find? good = some c) :
    ∃ t : State, detectSettings o (State.init g) = .exit 0 t ∧
      ∃ before, t.trace = before ++ successReport c ∧
        printsOf t.trace = printsOf before ++ printsOf (successReport c) := by
  obtain ⟨hc, pre, rest, hsplit, hpre⟩ := List.find?_eq_some.mp hfirst
  have hmem : ∀ c' ∈ pre, c' ∈ enumerate g := by
    intro c' h; rw [hsplit]; exact List.mem_append_left _ h
  have hcm : c ∈ enumerate g := by rw [hsplit]; simp
  obtain ⟨fs, st, _, hst, hrun⟩ := forRange_first_success o g pre c rest
    (fun c' h s hs => by
      have hb : good c' = false := by simpa using hpre c' h
      simpa [hb] using hgood c' (hmem c' h) s hs)
    (fun s hs => by simpa [hc] using hgood c hcm s hs) 0 (State.init g) rfl
  rw [← hsplit] at hrun
  refine ⟨_, detectSettings_of_loops o (State.init g) _ 0 0 hrun rfl, ?_⟩
  have key : ∃ before, (State.init g).trace ++ (failedTrace g 0 fs ++ st.events g c) =
      before ++ successReport c := by
    rcases hst with ⟨ver, uid, rfl⟩ | ⟨ver, uid, rfl⟩
    · exact ⟨failedTrace g 0 fs ++ (entryEvents c ver uid ++
        [.request (clientOf g c ver) (primaryQuery g uid) true]), by simp [State.init, Stop.events]⟩
    · exact ⟨failedTrace g 0 fs ++ (entryEvents c ver uid ++
        [.request (clientOf g c ver) (primaryQuery g uid) false,
         .request (clientOf g c ver) (anonymousQuery g uid) true]),
        by simp [State.init, Stop.events]⟩
  obtain ⟨before, hb⟩ := key
  exact ⟨before, hb, by rw [hb, printsOf_append]⟩

/-- Witness of C2: against `noIndentServer` the first good candidate of the
shipped enumeration is OFXGO 0001 203 with the flag set. -/
theorem detectSettings_first_success_witness :
    (enumerate exampleGlobals).find? (fun c => c.noIndent) = some ⟨"OFXGO", "0001", "203", true⟩ ∧
    ∃ t : State, detectSettings noIndentServer (State.init exampleGlobals) = .exit 0 t ∧
      ∃ before, t.trace = before ++ successReport ⟨"OFXGO", "0001", "203", true⟩ ∧
        printsOf t.trace = printsOf before ++ printsOf (successReport ⟨"OFXGO", "0001", "203", true⟩) :=
  ⟨by decide,
   detectSettings_first_success noIndentServer exampleGlobals (fun c => c.noIndent)
     ⟨"OFXGO", "0001", "203", true⟩ (fun c' _ s _ => noIndentServer_verdict c' s) (by decide)⟩

/-- C3: first success short-circuits. When the candidate at position `k`
(counted from 1) of the enumeration is the first on which `tryProfile` returns
`true`, the run ends with `os.Exit(0)` and its trace is exactly: the `k - 1`
candidates before it, each fully exhausted (entry, two failed requests, one
failure line, one sleep), then the events of the successful candidate ending
with its success report. Nothing follows: the calls of `tryProfile` are the first
`k` candidates, there are `k - 1` sleeps and `k - 1` failure lines, and the
`2 * (k - 1)` requests of the exhausted candidates all failed. -/
theorem first_success_short_circuits (o : Oracle) (g : Globals) (k : Nat) (c : Candidate)
    (hk : 0 < k) (hc : (enumerate g)[k - 1]? = some c)
    (hfail : ∀ c' ∈ (enumerate g).take (k - 1), ∀ s : State, s.globals = g →
      ∃ t, tryProfile o c'.appID c'.appVer c'.version c'.noIndent s = .ret false t)
    (hsucc : ∀ s : State, s.globals = g →
      ∃ t, tryProfile o c.appID c.appVer c.version c.noIndent s = .ret true t) :
    ∃ (fs : List Failed) (st : Stop) (T : List Event),
      detectSettings o (State.init g) = .exit 0 ⟨g, T⟩ ∧
      T = failedTrace g 0 fs ++ st.events g c ∧
      fs.map Failed.cand = (enumerate g).take (k - 1) ∧ fs.length = k - 1 ∧
      ((∃ ver uid, st = .primary ver uid) ∨ ∃ ver uid, st = .anonymous ver uid) ∧
      callsOf T = (enumerate g).take k ∧
      sleepsOf T = List.replicate (k - 1) (sleepDuration g.delay) ∧
      (printsOf T).length = (k - 1) + 5 ∧
      (requestsOf (failedTrace g 0 fs)).length = 2 * (k - 1) ∧
      ∀ x ∈ requestsOf (failedTrace g 0 fs), x.2.2 = false := by
  have hsplit := split_at_index (enumerate g) (k - 1) c hc
  have hlt : k - 1 < (enumerate g).length := (List.getElem?_eq_some.mp hc).1
  obtain ⟨fs, st, hfs, hst, hrun⟩ := forRange_first_success o g ((enumerate g).take (k - 1)) c
    ((enumerate g).drop (k - 1 + 1)) hfail hsucc 0 (State.init g) rfl
  rw [← hsplit] at hrun
  have hlen : fs.length = k - 1 := by
    have := congrArg List.length hfs
    simp only [List.length_map, List.length_take] at this
    omega
  have hk1 : k - 1 + 1 = k := by omega
  have htake : (enumerate g).take k = (enumerate g).take (k - 1) ++ [c] := by
    conv_lhs => rw [hsplit, ← hk1]
    rw [List.take_append_eq_append_take]
    simp [List.length_take, Nat.min_eq_left (Nat.le_of_lt hlt)]
  refine ⟨fs, st, failedTrace g 0 fs ++ st.events g c,
    by simpa [State.init] using detectSettings_of_loops o (State.init g) _ 0 0 hrun rfl,
    rfl, hfs, hlen, hst, ?_, ?_, ?_, ?_, requestsOf_failedTrace_failed g fs 0⟩
  · rw [callsOf_append, callsOf_failedTrace, callsOf_stopEvents, hfs, htake]
  · rw [sleepsOf_append, sleepsOf_failedTrace, sleepsOf_stopEvents, hlen, List.append_nil]
  · rw [printsOf_append, List.length_append, printsOf_failedTrace_length, hlen]
    rcases hst with ⟨ver, uid, rfl⟩ | ⟨ver, uid, rfl⟩ <;>
      simp [Stop.events, entryEvents, successReport, Candidate.call, printsOf]
  · rw [requestsOf_failedTrace_length, hlen]

/-- Witness of C3: against `noIndentServer` the first candidate of the shipped
enumeration fails both requests and the second succeeds, so `k = 2`: one
failure line, one sleep, then the success report. -/
theorem first_success_short_circuits_witness :
    (enumerate exampleGlobals)[2 - 1]? = some ⟨"OFXGO", "0001", "203", true⟩ ∧
    ∃ (fs : List Failed) (st : Stop) (T : List Event),
      detectSettings noIndentServer (State.init exampleGlobals) = .exit 0 ⟨exampleGlobals, T⟩ ∧
      T = failedTrace exampleGlobals 0 fs ++
        st.events exampleGlobals ⟨"OFXGO", "0001", "203", true⟩ ∧
      fs.map Failed.cand = (enumerate exampleGlobals).take (2 - 1) ∧ fs.length = 2 - 1 ∧
      ((∃ ver uid, st = .primary ver uid) ∨ ∃ ver uid, st = .anonymous ver uid) ∧
      callsOf T = (enumerate exampleGlobals).take 2 ∧
      sleepsOf T = List.replicate (2 - 1) (sleepDuration exampleGlobals.delay) ∧
      (printsOf T).length = (2 - 1) + 5 ∧
      (requestsOf (failedTrace exampleGlobals 0 fs)).length = 2 * (2 - 1) ∧
      ∀ x ∈ requestsOf (failedTrace exampleGlobals 0 fs), x.2.2 = false :=
  ⟨by decide,
   first_success_short_circuits noIndentServer exampleGlobals 2 ⟨"OFXGO", "0001", "203", true⟩
     (by decide) (by decide)
     (fun c' hc' s _ => by
       have hc2 : c' = ⟨"OFXGO", "0001", "203", false⟩ := by
         have h1 : (enumerate exampleGlobals).take (2 - 1) = [⟨"OFXGO", "0001", "203", false⟩] := by
           decide
         rw [h1] at hc'
         simpa using hc'
       subst hc2
       exact noIndentServer_verdict _ s)
     (fun s _ => noIndentServer_verdict ⟨"OFXGO", "0001", "203", true⟩ s)⟩

/-! ## The two requests of a candidate -/

/-- Counterexample to C4 as stated: when UID generation fails, `tryProfile`
leaves through `os.Exit(1)` and the candidate causes no request at all. -/
theorem tryProfile_zero_requests :
    tryProfile noEntropy "OFXGO" "0001" "203" false (State.init exampleGlobals) =
      .exit 1 ⟨exampleGlobals,
        [.tryProfile "OFXGO" "0001" "203" false, .newOfxVersion "203" (.ok 3),
         .randomUID (.err "unexpected EOF"),
         .print "Error creating uid for transaction: unexpected EOF\n"]⟩ ∧
    requestsOf (tryProfile noEntropy "OFXGO" "0001" "203" false
      (State.init exampleGlobals)).state.trace = [] := by
  constructor <;> decide

/-- What `tryProfile` has done when it returns: one or two requests, the first
with the primary credentials, the second with the constant `anonymous` in their
place. -/
theorem tryProfile_returning (o : Oracle) (c : Candidate) (s t : State) (b : Bool)
    (h : tryProfile o c.appID c.appVer c.version c.noIndent s = .ret b t) :
    ∃ (ver : OfxVersion) (uid : UID) (r1 r2 : Bool) (cl : Client) (q1 q2 : Request),
      t.globals = s.globals ∧
      t.trace = s.trace ++ (entryEvents c ver uid ++
        (.request cl q1 r1 :: if r1 then [] else [.request cl q2 r2])) ∧
      requestsOf t.trace = requestsOf s.trace ++
        ((cl, q1, r1) :: if r1 then [] else [(cl, q2, r2)]) ∧
      cl = { URL := s.globals.serverURL,
             basic := { AppID := c.appID, AppVer := c.appVer, SpecVersion := ver,
                        NoIndent := c.noIndent } } ∧
      q1 = { URL := s.globals.serverURL,
             Signon := { ClientUID := s.globals.clientUID, UserID := s.globals.username,
                         UserPass := s.globals.password, Org := s.globals.org,
                         Fid := s.globals.fid },
             Prof := [{ TrnUID := uid, DtProfUp := 0 }] } ∧
      q2 = { q1 with Signon := { q1.Signon with UserID := anonymous, UserPass := anonymous } } ∧
      r1 = o.request (s.trace ++ entryEvents c ver uid) cl q1 ∧
      r2 = o.request (s.trace ++ (entryEvents c ver uid ++ [.request cl q1 false])) cl q2 ∧
      b = (r1 || r2) := by
  rw [tryProfile_eq] at h
  cases h1 : o.newOfxVersion (s.trace ++ [c.call]) c.version with
  | err msg => simp [h1] at h
  | ok ver =>
    simp only [h1] at h
    cases h2 : o.randomUID (s.trace ++ [c.call, .newOfxVersion c.version (.ok ver)]) with
    | err msg => simp [h2] at h
    | ok uid =>
      simp only [h2] at h
      refine ⟨ver, uid,
        o.request (s.trace ++ entryEvents c ver uid) (clientOf s.globals c ver)
          (primaryQuery s.globals uid),
        o.request (s.trace ++ (entryEvents c ver uid ++
          [.request (clientOf s.globals c ver) (primaryQuery s.globals uid) false]))
          (clientOf s.globals c ver) (anonymousQuery s.globals uid),
        clientOf s.globals c ver, primaryQuery s.globals uid, anonymousQuery s.globals uid, ?_⟩
      cases h3 : o.request (s.trace ++ entryEvents c ver uid) (clientOf s.globals c ver)
          (primaryQuery s.globals uid) with
      | true =>
        simp only [h3, if_true, Result.ret.injEq] at h
        obtain ⟨hb, ht⟩ := h
        subst ht hb
        refine ⟨rfl, by simp, ?_, rfl, rfl, rfl, rfl, rfl, by simp⟩
        simp [requestsOf_append, entryEvents, Candidate.call, requestsOf]
      | false =>
        simp only [h3, Bool.false_eq_true, if_false, Result.ret.injEq] at h
        obtain ⟨hb, ht⟩ := h
        subst ht
        refine ⟨rfl, by simp, ?_, rfl, rfl, rfl, rfl, rfl, by simp [hb]⟩
        simp [requestsOf_append, entryEvents, Candidate.call, requestsOf]


/-- The two ways `tryProfile` leaves through `os.Exit`: a failed version parse
and a failed UID generation, each with its diagnostic and without a request. -/
theorem tryProfile_exiting (o : Oracle) (c : Candidate) (s : State) :
    (∀ msg, o.newOfxVersion (s.trace ++ [c.call]) c.version = .err msg →
      tryProfile o c.appID c.appVer c.version c.noIndent s =
        .exit 1 ⟨s.globals, s.trace ++ [c.call, .newOfxVersion c.version (.err msg),
          .print ("Error creating new OfxVersion enum: " ++ msg ++ "\n")]⟩) ∧
    (∀ ver msg, o.newOfxVersion (s.trace ++ [c.call]) c.version = .ok ver →
      o.randomUID (s.trace ++ [c.call, .newOfxVersion c.version (.ok ver)]) = .err msg →
      tryProfile o c.appID c.appVer c.version c.noIndent s =
        .exit 1 ⟨s.globals, s.trace ++ [c.call, .newOfxVersion c.version (.ok ver),
          .randomUID (.err msg),
          .print ("Error creating uid for transaction: " ++ msg ++ "\n")]⟩) := by
  constructor
  · intro msg h
    rw [tryProfile_eq, h]
    rfl
  · intro ver msg h1 h2
    rw [tryProfile_eq, h1]
    simp only
    rw [h2]
    rfl

/-- C4, amended: whenever `tryProfile` returns (version parsing and UID
generation succeeded), it has issued its first request with the primary
credentials; it has issued a second request exactly when the first returned an
error; the second request goes to the same client and its query is the first
query with `UserID` and `UserPass` both replaced by the constant `anonymous`
and nothing else changed; so it has issued one or two requests, and it returns
`true` exactly when one of them returned no error. When version parsing fails,
and when it succeeds but UID generation fails, `tryProfile` prints the
diagnostic and leaves through `os.Exit(1)` without any request; it leaves
through `os.Exit` in no other case and with no other status, and it returns
exactly when both collaborator calls succeed. The package-level variables are
unchanged on every path. -/
theorem tryProfile_requests (o : Oracle) (c : Candidate) (s : State) :
    (∀ (b : Bool) (t : State),
      tryProfile o c.appID c.appVer c.version c.noIndent s = .ret b t →
      ∃ (ver : OfxVersion) (uid : UID) (r1 r2 : Bool) (cl : Client) (q1 q2 : Request),
        t.globals = s.globals ∧
        t.trace = s.trace ++ (entryEvents c ver uid ++
          (.request cl q1 r1 :: if r1 then [] else [.request cl q2 r2])) ∧
        requestsOf t.trace = requestsOf s.trace ++
          ((cl, q1, r1) :: if r1 then [] else [(cl, q2, r2)]) ∧
        cl = { URL := s.globals.serverURL,
               basic := { AppID := c.appID, AppVer := c.appVer, SpecVersion := ver,
                          NoIndent := c.noIndent } } ∧
        q1 = { URL := s.globals.serverURL,
               Signon := { ClientUID := s.globals.clientUID, UserID := s.globals.username,
                           UserPass := s.globals.password, Org := s.globals.org,
                           Fid := s.globals.fid },
               Prof := [{ TrnUID := uid, DtProfUp := 0 }] } ∧
        q2 = { q1 with
               Signon := { q1.Signon with UserID := anonymous, UserPass := anonymous } } ∧
        r1 = o.request (s.trace ++ entryEvents c ver uid) cl q1 ∧
        r2 = o.request (s.trace ++ (entryEvents c ver uid ++ [.request cl q1 false])) cl q2 ∧
        b = (r1 || r2)) ∧
    (∀ msg, o.newOfxVersion (s.trace ++ [c.call]) c.version = .err msg →
      tryProfile o c.appID c.appVer c.version c.noIndent s =
        .exit 1 ⟨s.globals, s.trace ++ [c.call, .newOfxVersion c.version (.err msg),
          .print ("Error creating new OfxVersion enum: " ++ msg ++ "\n")]⟩) ∧
    (∀ ver msg, o.newOfxVersion (s.trace ++ [c.call]) c.version = .ok ver →
      o.randomUID (s.trace ++ [c.call, .newOfxVersion c.version (.ok ver)]) = .err msg →
      tryProfile o c.appID c.appVer c.version c.noIndent s =
        .exit 1 ⟨s.globals, s.trace ++ [c.call, .newOfxVersion c.version (.ok ver),
          .randomUID (.err msg),
          .print ("Error creating uid for transaction: " ++ msg ++ "\n")]⟩) ∧
    (∀ (code : Nat) (t : State),
      tryProfile o c.appID c.appVer c.version c.noIndent s = .exit code t →
      code = 1 ∧ t.globals = s.globals ∧ requestsOf t.trace = requestsOf s.trace ∧
      ((∃ msg, o.newOfxVersion (s.trace ++ [c.call]) c.version = .err msg) ∨
        ∃ ver msg, o.newOfxVersion (s.trace ++ [c.call]) c.version = .ok ver ∧
          o.randomUID (s.trace ++ [c.call, .newOfxVersion c.version (.ok ver)]) = .err msg)) ∧
    ((∃ b t, tryProfile o c.appID c.appVer c.version c.noIndent s = .ret b t) ↔
      ∃ ver uid, o.newOfxVersion (s.trace ++ [c.call]) c.version = .ok ver ∧
        o.randomUID (s.trace ++ [c.call, .newOfxVersion c.version (.ok ver)]) = .ok uid) := by
  obtain ⟨hexit1, hexit2⟩ := tryProfile_exiting o c s
  refine ⟨fun b t h => tryProfile_returning o c s t b h, hexit1, hexit2, ?_, ?_⟩
  · intro code t h
    cases h1 : o.newOfxVersion (s.trace ++ [c.call]) c.version with
    | err msg =>
      rw [hexit1 msg h1] at h
      simp only [Result.exit.injEq] at h
      obtain ⟨hc, ht⟩ := h
      subst ht
      exact ⟨hc.symm, rfl, by simp [requestsOf_append, requestsOf, Candidate.call],
        Or.inl ⟨msg, rfl⟩⟩
    | ok ver =>
      cases h2 : o.randomUID (s.trace ++ [c.call, .newOfxVersion c.version (.ok ver)]) with
      | err msg =>
        rw [hexit2 ver msg h1 h2] at h
        simp only [Result.exit.injEq] at h
        obtain ⟨hc, ht⟩ := h
        subst ht
        exact ⟨hc.symm, rfl, by simp [requestsOf_append, requestsOf, Candidate.call],
          Or.inr ⟨ver, msg, rfl, h2⟩⟩
      | ok uid =>
        exfalso
        rw [tryProfile_eq, h1] at h
        simp only at h
        rw [h2] at h
        simp only at h
        split at h <;> simp at h
  · constructor
    · rintro ⟨b, t, h⟩
      cases h1 : o.newOfxVersion (s.trace ++ [c.call]) c.version with
      | err msg => rw [hexit1 msg h1] at h; simp at h
      | ok ver =>
        cases h2 : o.randomUID (s.trace ++ [c.call, .newOfxVersion c.version (.ok ver)]) with
        | err msg => rw [hexit2 ver msg h1 h2] at h; simp at h
        | ok uid => exact ⟨ver, uid, rfl, h2⟩
    · rintro ⟨ver, uid, h1, h2⟩
      rw [tryProfile_eq, h1]
      simp only
      rw [h2]
      simp only
      split
      · exact ⟨_, _, rfl⟩
      · exact ⟨_, _, rfl⟩

/-- Witness of the amended C4: against `noIndentServer` the first shipped
candidate (flag unset) returns `false` after two requests; against `noEntropy`
it leaves through `os.Exit(1)` after the failed UID generation. -/
theorem tryProfile_requests_witness :
    (∃ (ver : OfxVersion) (uid : UID) (r1 r2 : Bool) (cl : Client) (q1 q2 : Request),
      exampleGlobals = (State.init exampleGlobals).globals ∧
      [Event.tryProfile "OFXGO" "0001" "203" false, .newOfxVersion "203" (.ok 3),
        .randomUID (.ok "5b7f9c1e"),
        .request (clientOf exampleGlobals ⟨"OFXGO", "0001", "203", false⟩ 3)
          (primaryQuery exampleGlobals "5b7f9c1e") false,
        .request (clientOf exampleGlobals ⟨"OFXGO", "0001", "203", false⟩ 3)
          (anonymousQuery exampleGlobals "5b7f9c1e") false] =
        (State.init exampleGlobals).trace ++
          (entryEvents ⟨"OFXGO", "0001", "203", false⟩ ver uid ++
            (.request cl q1 r1 :: if r1 then [] else [.request cl q2 r2])) ∧
      requestsOf [Event.tryProfile "OFXGO" "0001" "203" false, .newOfxVersion "203" (.ok 3),
        .randomUID (.ok "5b7f9c1e"),
        .request (clientOf exampleGlobals ⟨"OFXGO", "0001", "203", false⟩ 3)
          (primaryQuery exampleGlobals "5b7f9c1e") false,
        .request (clientOf exampleGlobals ⟨"OFXGO", "0001", "203", false⟩ 3)
          (anonymousQuery exampleGlobals "5b7f9c1e") false] =
        requestsOf (State.init exampleGlobals).trace ++
          ((cl, q1, r1) :: if r1 then [] else [(cl, q2, r2)]) ∧
      cl = { URL := exampleGlobals.serverURL,
             basic := { AppID := "OFXGO", AppVer := "0001", SpecVersion := ver,
                        NoIndent := false } } ∧
      q1 = { URL := exampleGlobals.serverURL,
             Signon := { ClientUID := exampleGlobals.clientUID,
                         UserID := exampleGlobals.username,
                         UserPass := exampleGlobals.password, Org := exampleGlobals.org,
                         Fid := exampleGlobals.fid },
             Prof := [{ TrnUID := uid, DtProfUp := 0 }] } ∧
      q2 = { q1 with Signon := { q1.Signon with UserID := anonymous, UserPass := anonymous } } ∧
      r1 = noIndentServer.request
        ((State.init exampleGlobals).trace ++ entryEvents ⟨"OFXGO", "0001", "203", false⟩ ver uid)
        cl q1 ∧
      r2 = noIndentServer.request
        ((State.init exampleGlobals).trace ++
          (entryEvents ⟨"OFXGO", "0001", "203", false⟩ ver uid ++ [.request cl q1 false])) cl q2 ∧
      false = (r1 || r2)) ∧
    tryProfile noEntropy "OFXGO" "0001" "203" false (State.init exampleGlobals) =
      .exit 1 ⟨exampleGlobals, (State.init exampleGlobals).trace ++
        [Candidate.call ⟨"OFXGO", "0001", "203", false⟩, .newOfxVersion "203" (.ok 3),
         .randomUID (.err "unexpected EOF"),
         .print ("Error creating uid for transaction: " ++ "unexpected EOF" ++ "\n")]⟩ :=
  ⟨(tryProfile_requests noIndentServer ⟨"OFXGO", "0001", "203", false⟩
    (State.init exampleGlobals)).1 false
    ⟨exampleGlobals,
      [.tryProfile "OFXGO" "0001" "203" false, .newOfxVersion "203" (.ok 3),
       .randomUID (.ok "5b7f9c1e"),
       .request (clientOf exampleGlobals ⟨"OFXGO", "0001", "203", false⟩ 3)
         (primaryQuery exampleGlobals "5b7f9c1e") false,
       .request (clientOf exampleGlobals ⟨"OFXGO", "0001", "203", false⟩ 3)
         (anonymousQuery exampleGlobals "5b7f9c1e") false]⟩
    (by decide),
   (tryProfile_requests noEntropy ⟨"OFXGO", "0001", "203", false⟩
    (State.init exampleGlobals)).2.2.1 3 "unexpected EOF" rfl rfl⟩

/-! ## Pacing -/

theorem sleepDuration_of_small (delay : Nat) (h : delay * 1000000 < 2 ^ 63) :
    sleepDuration delay = (delay : Int) * 1000000 := by
  have h1 : delay < 2 ^ 64 := by omega
  have h2 : delay % 2 ^ 64 = delay := Nat.mod_eq_of_lt h1
  have h3 : delay * 1000000 % 2 ^ 64 = delay * 1000000 := Nat.mod_eq_of_lt (by omega)
  unfold sleepDuration toInt64
  rw [h2, h3, if_pos h]
  push_cast
  rfl

/-- The events after a sleep of the exhausted part of a run start with the entry
of the next candidate, if there are any. -/
theorem head_failedTrace (g : Globals) (tail : List Event)
    (htail : tail = [] ∨ ∃ c tl, tail = Candidate.call c :: tl) (fs : List Failed) (n : Nat) :
    failedTrace g n fs ++ tail = [] ∨
      ∃ c tl, failedTrace g n fs ++ tail = Candidate.call c :: tl := by
  cases fs with
  | nil => simpa [failedTrace] using htail
  | cons f fs =>
    exact Or.inr ⟨f.cand, _, by simp [failedTrace, Failed.events, entryEvents]; rfl⟩

theorem head_stopEvents (g : Globals) (c : Candidate) (st : Stop) :
    ∃ tl, st.events g c = Candidate.call c :: tl := by
  cases st <;> simp [Stop.events, entryEvents]

theorem sleep_not_mem_stopEvents (g : Globals) (c : Candidate) (st : Stop) (d : Int) :
    Event.sleep d ∉ st.events g c := by
  cases st <;> simp [Stop.events, entryEvents, successReport, Candidate.call]

/-- Context of every sleep in a sequence of exhausted candidates followed by
events without a sleep. -/
theorem sleep_context (g : Globals) (tail : List Event) (hno : ∀ d, Event.sleep d ∉ tail)
    (htail : tail = [] ∨ ∃ c tl, tail = Candidate.call c :: tl) (fs : List Failed) :
    ∀ (n : Nat) (pre post : List Event) (d : Int),
      failedTrace g n fs ++ tail = pre ++ .sleep d :: post →
      d = sleepDuration g.delay ∧
      (∃ pre' cl q1 q2 line,
        pre = pre' ++ [.request cl q1 false, .request cl q2 false, .print line]) ∧
      (post = [] ∨ ∃ c post', post = Candidate.call c :: post') ∧
      (post = [] → tail = []) := by
  induction fs with
  | nil =>
    intro n pre post d h
    exfalso
    apply hno d
    simp only [failedTrace, List.nil_append] at h
    rw [h]
    simp
  | cons f fs ih =>
    intro n pre post d h
    simp only [failedTrace, Failed.events, entryEvents, List.append_assoc, List.cons_append,
      List.nil_append] at h
    rcases pre with _ | ⟨p1, pre⟩
    · simp [Candidate.call] at h
    rcases pre with _ | ⟨p2, pre⟩
    · simp at h
    rcases pre with _ | ⟨p3, pre⟩
    · simp at h
    rcases pre with _ | ⟨p4, pre⟩
    · simp at h
    rcases pre with _ | ⟨p5, pre⟩
    · simp at h
    rcases pre with _ | ⟨p6, pre⟩
    · simp at h
    simp only [List.cons_append, List.cons.injEq] at h
    obtain ⟨rfl, rfl, rfl, rfl, rfl, rfl, h⟩ := h
    rcases pre with _ | ⟨p7, pre⟩
    · simp only [List.nil_append, List.cons.injEq, Event.sleep.injEq] at h
      obtain ⟨hd, hpost⟩ := h
      refine ⟨hd.symm, ⟨[f.cand.call, .newOfxVersion f.cand.version (.ok f.ver),
        .randomUID (.ok f.uid)], _, _, _, _, rfl⟩, ?_, ?_⟩
      · rw [← hpost]
        exact head_failedTrace g tail htail fs _
      · intro hp
        rw [hp] at hpost
        cases fs with
        | nil => simpa [failedTrace] using hpost
        | cons f2 fs2 => simp [failedTrace, Failed.events, entryEvents] at hpost
    · simp only [List.cons_append, List.cons.injEq] at h
      obtain ⟨rfl, h⟩ := h
      obtain ⟨hd, hpre, hpost, hlast⟩ := ih _ pre post d h
      have hcons : ∀ (e : Event) (l : List Event),
          (∃ pre' cl q1 q2 line,
            l = pre' ++ [Event.request cl q1 false, .request cl q2 false, .print line]) →
          ∃ pre' cl q1 q2 line,
            e :: l = pre' ++ [Event.request cl q1 false, .request cl q2 false, .print line] :=
        fun e l ⟨p, cl, q1, q2, line, hl⟩ => ⟨e :: p, cl, q1, q2, line, by simp [hl]⟩
      exact ⟨hd, hcons _ _ (hcons _ _ (hcons _ _ (hcons _ _ (hcons _ _ (hcons _ _
        (hcons _ _ hpre)))))), hpost, hlast⟩

theorem exhaustedOf_failedTrace (g : Globals) (tail : List Event) (fs : List Failed) :
    ∀ n, exhaustedOf (failedTrace g n fs ++ tail) = fs.length + exhaustedOf tail := by
  induction fs with
  | nil => intro n; simp [failedTrace]
  | cons f fs ih =>
    intro n
    simp only [failedTrace, Failed.events, entryEvents, Candidate.call, List.append_assoc,
      List.cons_append, List.nil_append]
    simp only [exhaustedOf]
    rw [ih]
    simp
    omega

theorem exhaustedOf_stopEvents (g : Globals) (c : Candidate) (st : Stop) :
    exhaustedOf (st.events g c) = 0 := by
  cases st <;> simp [Stop.events, entryEvents, successReport, Candidate.call, exhaustedOf]

/-- Trace of `detectSettings` from the initial state, for the description of the
run given by `detectSettings_shape`. -/
theorem detectSettings_trace (o : Oracle) (g : Globals) :
    ∃ (fs : List Failed) (tail : List Event),
      (detectSettings o (State.init g)).state.trace = failedTrace g 0 fs ++ tail ∧
      ((tail = [] ∧ ∃ t, detectSettings o (State.init g) = .ret () t) ∨
       ∃ c st, tail = Stop.events g c st ∧
        ∃ t, detectSettings o (State.init g) = .exit st.code t) := by
  obtain ⟨r, hr, _⟩ := detectSettings_shape o (State.init g)
  cases hl : r.last with
  | none =>
    refine ⟨r.failed, [], ?_, Or.inl ⟨rfl, ?_⟩⟩
    · rw [hr]; simp [hl, Result.state, State.init, RunLog.events]
    · rw [hr]; simp [hl]
  | some p =>
    obtain ⟨c, st⟩ := p
    refine ⟨r.failed, st.events g c, ?_, Or.inr ⟨c, st, rfl, ?_⟩⟩
    · rw [hr]; simp [hl, Result.state, State.init, RunLog.events]
    · rw [hr]; simp [hl]

/-- Under `rejectingServer`, `tryProfile` returns `false` on every candidate. -/
theorem rejectingServer_verdict (c : Candidate) (s : State) :
    ∃ t, tryProfile rejectingServer c.appID c.appVer c.version c.noIndent s = .ret false t := by
  rw [tryProfile_eq]
  simp [rejectingServer]

/-- A run in which `tryProfile` returns `false` on every candidate returns
normally after exhausting the whole enumeration. -/
theorem detectSettings_all_fail (o : Oracle) (g : Globals)
    (hfail : ∀ c ∈ enumerate g, ∀ s : State, s.globals = g →
      ∃ t, tryProfile o c.appID c.appVer c.version c.noIndent s = .ret false t) :
    ∃ fs : List Failed, fs.map Failed.cand = enumerate g ∧
      detectSettings o (State.init g) = .ret () ⟨g, failedTrace g 0 fs⟩ := by
  obtain ⟨fs, hfs, hrun⟩ := forRange_fail_prefix o g (enumerate g) [] hfail 0 (State.init g) rfl
  refine ⟨fs, hfs, ?_⟩
  simp only [List.append_nil] at hrun
  rw [detectSettings_eq, hrun]
  simp [forRange, State.init]

theorem getLast?_failedTrace (g : Globals) (fs : List Failed) :
    ∀ n, fs ≠ [] → (failedTrace g n fs).getLast? = some (.sleep (sleepDuration g.delay)) := by
  induction fs with
  | nil => intro n h; exact absurd rfl h
  | cons f fs ih =>
    intro n _
    cases fs with
    | nil => simp [failedTrace, Failed.events, entryEvents]
    | cons f2 fs2 =>
      have := ih (uintSucc n) (by simp)
      rw [failedTrace, List.getLast?_append, this]
      rfl

theorem length_enumerate_shipped : (enumerate exampleGlobals).length = 594 := by decide

/-- Counterexample to C5 as stated: when every request fails, the run returns
after 594 candidates and 594 sleeps, and the last event of the run is a sleep: no
attempt of a next candidate follows it. -/
theorem sleep_after_last_candidate :
    (detectSettings rejectingServer (State.init exampleGlobals)).state.trace.getLast? =
      some (.sleep 500000000) ∧
    (callsOf (detectSettings rejectingServer (State.init exampleGlobals)).state.trace).length
      = 594 ∧
    (sleepsOf (detectSettings rejectingServer (State.init exampleGlobals)).state.trace).length
      = 594 := by
  obtain ⟨fs, hfs, hrun⟩ := detectSettings_all_fail rejectingServer exampleGlobals
    (fun c _ s _ => rejectingServer_verdict c s)
  have hlen : fs.length = 594 := by
    rw [← length_enumerate_shipped, ← hfs, List.length_map]
  have hne : fs ≠ [] := by
    intro h; rw [h] at hlen; simp at hlen
  rw [hrun]
  refine ⟨?_, ?_, ?_⟩
  · simp only [Result.state]
    rw [getLast?_failedTrace _ _ _ hne]
    decide
  · simp only [Result.state]
    rw [callsOf_failedTrace, List.length_map, hlen]
  · simp only [Result.state]
    rw [sleepsOf_failedTrace, List.length_replicate, hlen]

/-- C5, amended: in every run the number of sleeps equals the number of
candidates whose two requests both failed; every sleep has the duration
`time.Duration(delay) * time.Millisecond`, which is `delay` milliseconds when the
product does not overflow `int64`; every sleep directly follows the failure line
printed after two failed requests (so no sleep precedes the first request); and
every sleep is directly followed either by the entry into `tryProfile` for the
next candidate or by nothing, the latter only when the run returns after the
last candidate. -/
theorem sleep_once_per_failed_candidate (o : Oracle) (g : Globals) :
    (sleepsOf (detectSettings o (State.init g)).state.trace).length =
      exhaustedOf (detectSettings o (State.init g)).state.trace ∧
    ∀ (pre post : List Event) (d : Int),
      (detectSettings o (State.init g)).state.trace = pre ++ .sleep d :: post →
      d = sleepDuration g.delay ∧
      (g.delay * 1000000 < 2 ^ 63 → d = (g.delay : Int) * 1000000) ∧
      (∃ pre' cl q1 q2 line,
        pre = pre' ++ [.request cl q1 false, .request cl q2 false, .print line]) ∧
      (post = [] ∨ ∃ c post', post = Candidate.call c :: post') ∧
      (post = [] → ∃ t, detectSettings o (State.init g) = .ret () t) := by
  obtain ⟨fs, tail, htr, hcase⟩ := detectSettings_trace o g
  have hno : ∀ d, Event.sleep d ∉ tail := by
    intro d
    rcases hcase with ⟨rfl, _⟩ | ⟨c, st, rfl, _⟩
    · simp
    · exact sleep_not_mem_stopEvents g c st d
  have hhead : tail = [] ∨ ∃ c tl, tail = Candidate.call c :: tl := by
    rcases hcase with ⟨rfl, _⟩ | ⟨c, st, rfl, _⟩
    · exact Or.inl rfl
    · obtain ⟨tl, htl⟩ := head_stopEvents g c st
      exact Or.inr ⟨c, tl, htl⟩
  constructor
  · rw [htr, sleepsOf_append, exhaustedOf_failedTrace, sleepsOf_failedTrace]
    rcases hcase with ⟨rfl, _⟩ | ⟨c, st, rfl, _⟩
    · simp [sleepsOf, exhaustedOf]
    · simp [sleepsOf_stopEvents, exhaustedOf_stopEvents]
  · intro pre post d h
    rw [htr] at h
    obtain ⟨hd, hpre, hpost, hlast⟩ := sleep_context g tail hno hhead fs 0 pre post d h
    refine ⟨hd, fun hsmall => ?_, hpre, hpost, fun hp => ?_⟩
    · rw [hd, sleepDuration_of_small _ hsmall]
    · have ht := hlast hp
      rcases hcase with ⟨_, hret⟩ | ⟨c, st, hst, _⟩
      · exact hret
      · exfalso
        obtain ⟨tl, htl⟩ := head_stopEvents g c st
        rw [ht] at hst
        rw [← hst] at htl
        simp at htl

/-- Witness of the amended C5: against `noIndentServer` the run on the shipped
catalogs sleeps once, after the failure line of the first candidate and before
the entry of the second. -/
theorem sleep_once_per_failed_candidate_witness :
    (detectSettings noIndentServer (State.init exampleGlobals)).state.trace =
      (entryEvents ⟨"OFXGO", "0001", "203", false⟩ 3 "5b7f9c1e" ++
        [.request (clientOf exampleGlobals ⟨"OFXGO", "0001", "203", false⟩ 3)
           (primaryQuery exampleGlobals "5b7f9c1e") false,
         .request (clientOf exampleGlobals ⟨"OFXGO", "0001", "203", false⟩ 3)
           (anonymousQuery exampleGlobals "5b7f9c1e") false,
         .print "Attempt 1 failed (OFXGO 0001 203), trying again after 500ms...\n"]) ++
      .sleep 500000000 ::
        Stop.events exampleGlobals ⟨"OFXGO", "0001", "203", true⟩ (.primary 3 "5b7f9c1e") ∧
    (500000000 : Int) = (exampleGlobals.delay : Int) * 1000000 ∧
    (Stop.events exampleGlobals ⟨"OFXGO", "0001", "203", true⟩ (.primary 3 "5b7f9c1e") = [] ∨
      ∃ c post', Stop.events exampleGlobals ⟨"OFXGO", "0001", "203", true⟩
        (.primary 3 "5b7f9c1e") = Candidate.call c :: post') :=
  have h : (detectSettings noIndentServer (State.init exampleGlobals)).state.trace =
      (entryEvents ⟨"OFXGO", "0001", "203", false⟩ 3 "5b7f9c1e" ++
        [.request (clientOf exampleGlobals ⟨"OFXGO", "0001", "203", false⟩ 3)
           (primaryQuery exampleGlobals "5b7f9c1e") false,
         .request (clientOf exampleGlobals ⟨"OFXGO", "0001", "203", false⟩ 3)
           (anonymousQuery exampleGlobals "5b7f9c1e") false,
         .print "Attempt 1 failed (OFXGO 0001 203), trying again after 500ms...\n"]) ++
      .sleep 500000000 ::
        Stop.events exampleGlobals ⟨"OFXGO", "0001", "203", true⟩ (.primary 3 "5b7f9c1e") := by
    decide
  have hw := (sleep_once_per_failed_candidate noIndentServer exampleGlobals).2 _ _ _ h
  ⟨h, hw.2.1 (by decide), hw.2.2.2.1⟩

/-! ## Fatal errors -/

/-- A candidate whose version string the parser rejects stops the run with
status 1 right after the failed parse. -/
theorem candBody_rejected (o : Oracle) (v : String)
    (hrej : ∀ tr, ∃ msg, o.newOfxVersion tr v = .err msg) (c : Candidate) (hc : c.version = v)
    (n : Nat) (s : State) :
    ∃ msg, candBody o c n s =
      .exit 1 ⟨s.globals, s.trace ++ Stop.events s.globals c (.badVersion msg)⟩ := by
  obtain ⟨msg, hmsg⟩ := hrej (s.trace ++ [c.call])
  refine ⟨msg, ?_⟩
  unfold candBody loopBody
  rw [tryProfile_eq, hc, hmsg]

/-- Shape of a run when the parser rejects `v`: no exhausted candidate carries
`v`, and a last candidate carrying `v` stopped on the failed parse. -/
theorem forRange_rejected (o : Oracle) (v : String)
    (hrej : ∀ tr, ∃ msg, o.newOfxVersion tr v = .err msg) (cs : List Candidate) :
    ∀ n s, ∃ r : RunLog,
      forRange (candBody o) cs n s =
        r.result n ⟨s.globals, s.trace ++ r.events s.globals n⟩ ∧
      (∀ f ∈ r.failed, f.cand.version ≠ v) ∧
      (∀ c st, r.last = some (c, st) → c.version = v → ∃ msg, st = .badVersion msg) := by
  induction cs with
  | nil =>
    intro n s
    exact ⟨⟨[], none⟩, by simp [forRange, RunLog.result, RunLog.events, failedTrace, bump],
      by simp, by simp⟩
  | cons c cs ih =>
    intro n s
    by_cases hc : c.version = v
    · obtain ⟨msg, h⟩ := candBody_rejected o v hrej c hc n s
      refine ⟨⟨[], some (c, .badVersion msg)⟩, ?_, by simp, ?_⟩
      · simp [forRange, h, RunLog.result, RunLog.events, failedTrace, Stop.code]
      · intro c' st h' _
        simp only [Option.some.injEq, Prod.mk.injEq] at h'
        exact ⟨msg, h'.2.symm⟩
    · rcases candBody_step o c n s with ⟨st, _, h⟩ | ⟨ver, uid, _, h⟩
      · refine ⟨⟨[], some (c, st)⟩, ?_, by simp, ?_⟩
        · simp [forRange, h, RunLog.result, RunLog.events, failedTrace]
        · intro c' st' h' hv
          simp only [Option.some.injEq, Prod.mk.injEq] at h'
          rw [← h'.1] at hv
          exact absurd hv hc
      · obtain ⟨r, hr, hfailed, hlast⟩ :=
          ih (uintSucc n)
            ⟨s.globals, s.trace ++ Failed.events s.globals (uintSucc n) ⟨c, ver, uid⟩⟩
        refine ⟨⟨⟨c, ver, uid⟩ :: r.failed, r.last⟩, ?_, ?_, hlast⟩
        · rw [forRange_cons, h]
          simp only
          rw [hr]
          cases hl : r.last with
          | none => simp [RunLog.result, RunLog.events, hl, failedTrace, bump_succ]
          | some p => simp [RunLog.result, RunLog.events, hl, failedTrace]
        · intro f hf
          simp only [List.mem_cons] at hf
          rcases hf with rfl | hf
          · exact hc
          · exact hfailed f hf

theorem head?_flatMap {α β : Type} (P : β → Prop) (f : α → List β) (l : List α)
    (h : ∀ a ∈ l, ∀ b ∈ (f a).head?, P b) : ∀ b ∈ (l.flatMap f).head?, P b := by
  induction l with
  | nil => intro b hb; simp at hb
  | cons a l ih =>
    intro b hb
    simp only [List.flatMap_cons, List.head?_append, Option.mem_def] at hb
    cases hfa : (f a).head? with
    | none =>
      rw [hfa] at hb
      exact ih (fun a' ha' => h a' (List.mem_cons_of_mem _ ha')) b (by simpa using hb)
    | some b' =>
      rw [hfa] at hb
      simp only [Option.or, Option.some.injEq] at hb
      subst hb
      exact h a (List.mem_cons_self _ _) b' hfa

/-- The first candidate of the enumeration carries the first spec version. -/
theorem head_enumerate_version (g : Globals) (v : String) (rest : List String)
    (hv : g.versions = v :: rest) : ∀ c ∈ (enumerate g).head?, c.version = v := by
  unfold enumerate
  apply head?_flatMap
  intro a _
  apply head?_flatMap
  intro av _
  rw [hv]
  intro c hc
  simp at hc
  rw [← hc]

/-- Counterexample to C6 as stated: the rejected string stands second in the
spec-version catalog; the run does abort with status 1, but only after the four
requests of the two candidates that carry the first spec version. -/
theorem abort_after_requests :
    (detectSettings strictParser (State.init badCatalogGlobals)).exitCode? = some 1 ∧
    (strictParser.newOfxVersion [] "bogus" = .err "Invalid OfxVersion: bogus") ∧
    (requestsOf (detectSettings strictParser (State.init badCatalogGlobals)).state.trace).length
      = 4 := by
  refine ⟨by decide, by decide, by decide⟩

/-- C6, amended: when the version parser rejects the string `v`, the run aborts
with status 1 as soon as `tryProfile` is entered for a candidate carrying `v`:
the trace then ends with the entry of that candidate, the failed parse and the
diagnostic, so no request is issued for that candidate and no further
candidate is tried. When `v` is the first entry of the spec-version catalog and
the enumeration is not empty, the whole run issues no request at all. -/
theorem rejected_version_aborts (o : Oracle) (g : Globals) (v : String)
    (hrej : ∀ tr, ∃ msg, o.newOfxVersion tr v = .err msg) :
    (∀ c ∈ callsOf (detectSettings o (State.init g)).state.trace, c.version = v →
      ∃ before msg,
        detectSettings o (State.init g) =
          .exit 1 ⟨g, before ++ [c.call, .newOfxVersion v (.err msg),
            .print ("Error creating new OfxVersion enum: " ++ msg ++ "\n")]⟩ ∧
        c ∉ callsOf before) ∧
    (∀ rest, g.versions = v :: rest → enumerate g ≠ [] →
      (detectSettings o (State.init g)).exitCode? = some 1 ∧
      requestsOf (detectSettings o (State.init g)).state.trace = []) := by
  constructor
  · obtain ⟨r, hr, hfailed, hlast⟩ := forRange_rejected o v hrej (enumerate g) 0 (State.init g)
    have hds : detectSettings o (State.init g) =
        match r.last with
        | none => .ret () ⟨g, r.events g 0⟩
        | some (_, st) => .exit st.code ⟨g, r.events g 0⟩ := by
      rw [detectSettings_eq, hr]
      cases hl : r.last with
      | none => simp [RunLog.result, hl, State.init]
      | some p => simp [RunLog.result, hl, State.init]
    intro c hc hcv
    have htr : (detectSettings o (State.init g)).state.trace = r.events g 0 := by
      rw [hds]; cases r.last <;> rfl
    rw [htr, callsOf_runLog] at hc
    have hnot : c ∉ r.failed.map Failed.cand := by
      intro hmem
      obtain ⟨f, hf, hfc⟩ := List.mem_map.mp hmem
      exact hfailed f hf (by rw [hfc]; exact hcv)
    unfold RunLog.cands at hc
    cases hl : r.last with
    | none =>
      rw [hl] at hc
      simp only [List.append_nil] at hc
      exact absurd hc hnot
    | some p =>
      obtain ⟨c', st⟩ := p
      rw [hl] at hc
      simp only [List.mem_append, List.mem_singleton] at hc
      rcases hc with hc | hc
      · exact absurd hc hnot
      · subst hc
        obtain ⟨msg, rfl⟩ := hlast c st hl hcv
        refine ⟨failedTrace g 0 r.failed, msg, ?_, ?_⟩
        · rw [hds, hl]
          simp [RunLog.events, hl, Stop.events, Stop.code, hcv]
        · rw [callsOf_failedTrace]
          exact hnot
  · intro rest hv hne
    cases henum : enumerate g with
    | nil => exact absurd henum hne
    | cons c cs =>
      have hcv : c.version = v :=
        head_enumerate_version g v rest hv c (by rw [henum]; rfl)
      obtain ⟨msg, hbody⟩ := candBody_rejected o v hrej c hcv 0 (State.init g)
      have hds : detectSettings o (State.init g) =
          .exit 1 ⟨g, Stop.events g c (.badVersion msg)⟩ := by
        rw [detectSettings_eq, henum, forRange_cons, hbody]
        simp [State.init]
      rw [hds]
      simp [Result.exitCode?, Result.state, Stop.events, Candidate.call, requestsOf]

/-- Witness of the amended C6: `strictParser` rejects the string `bogus`, which
stands first in the catalog of `badFirstGlobals`. -/
theorem rejected_version_aborts_witness :
    (∀ tr, ∃ msg, strictParser.newOfxVersion tr "bogus" = .err msg) ∧
    (detectSettings strictParser (State.init badFirstGlobals)).exitCode? = some 1 ∧
    requestsOf (detectSettings strictParser (State.init badFirstGlobals)).state.trace = [] :=
  ⟨fun _ => ⟨"Invalid OfxVersion: bogus", rfl⟩,
   (rejected_version_aborts strictParser badFirstGlobals "bogus"
      (fun _ => ⟨"Invalid OfxVersion: bogus", rfl⟩)).2 ["203"] rfl (by decide)⟩

/-! ## Exhaustion -/

theorem failureLine_ne_header (n : Nat) (a v ver : String) (b : Bool) (d : Nat) :
    failureLine n a v ver b d ≠ "The following settings were found to work:\n" := by
  intro h
  have h2 := congrArg String.data h
  simp [failureLine, String.data_append] at h2

/-- The lines printed for a sequence of exhausted candidates are failure lines
of these candidates. -/
theorem printsOf_failedTrace (g : Globals) (fs : List Failed) :
    ∀ n, ∀ line ∈ printsOf (failedTrace g n fs),
      ∃ m c, c ∈ fs.map Failed.cand ∧
        line = failureLine m c.appID c.appVer c.version c.noIndent g.delay := by
  induction fs with
  | nil => intro n line h; simp [failedTrace, printsOf] at h
  | cons f fs ih =>
    intro n line h
    simp only [failedTrace, printsOf_append, List.mem_append] at h
    rcases h with h | h
    · simp [Failed.events, entryEvents, Candidate.call, printsOf] at h
      exact ⟨uintSucc n, f.cand, by simp, h⟩
    · obtain ⟨m, c, hc, hl⟩ := ih _ line h
      exact ⟨m, c, by simp only [List.map_cons]; exact List.mem_cons_of_mem _ hc, hl⟩

/-- A run that ends with `os.Exit(0)` has printed the header of the success
report. -/
theorem header_of_exit_zero (o : Oracle) (g : Globals) (t : State)
    (h : detectSettings o (State.init g) = .exit 0 t) :
    "The following settings were found to work:\n" ∈ printsOf t.trace := by
  obtain ⟨fs, tail, htr, hcase⟩ := detectSettings_trace o g
  rw [h] at htr hcase
  simp only [Result.state] at htr
  rcases hcase with ⟨_, t', ht'⟩ | ⟨c, st, rfl, t', ht'⟩
  · simp at ht'
  · simp only [Result.exit.injEq] at ht'
    rw [htr, printsOf_append]
    apply List.mem_append_right
    cases st with
    | badVersion msg => simp [Stop.code] at ht'
    | badUID ver msg => simp [Stop.code] at ht'
    | primary ver uid => simp [Stop.events, entryEvents, successReport, Candidate.call, printsOf]
    | anonymous ver uid =>
      simp [Stop.events, entryEvents, successReport, Candidate.call, printsOf]

/-- Counterexample to C7 as stated: when every request fails on the shipped
catalogs, `detectSettings` returns normally without calling `os.Exit`, and all it
has printed are the 594 failure lines of the 594 candidates: there is no report
of the exhaustion. -/
theorem exhaustion_without_report :
    (detectSettings rejectingServer (State.init exampleGlobals)).exitCode? = none ∧
    (callsOf (detectSettings rejectingServer (State.init exampleGlobals)).state.trace).length
      = 594 ∧
    (printsOf (detectSettings rejectingServer (State.init exampleGlobals)).state.trace).length
      = 594 ∧
    ∀ line ∈ printsOf (detectSettings rejectingServer (State.init exampleGlobals)).state.trace,
      ∃ (m : Nat) (c : Candidate),
        line = failureLine m c.appID c.appVer c.version c.noIndent 500 := by
  obtain ⟨fs, hfs, hrun⟩ := detectSettings_all_fail rejectingServer exampleGlobals
    (fun c _ s _ => rejectingServer_verdict c s)
  have hlen : fs.length = 594 := by
    rw [← length_enumerate_shipped, ← hfs, List.length_map]
  rw [hrun]
  refine ⟨rfl, ?_, ?_, ?_⟩
  · simp only [Result.state]
    rw [callsOf_failedTrace, List.length_map, hlen]
  · simp only [Result.state]
    rw [printsOf_failedTrace_length, hlen]
  · intro line hline
    obtain ⟨m, c, _, hl⟩ := printsOf_failedTrace exampleGlobals fs 0 line hline
    exact ⟨m, c, hl⟩

/-- C7, amended: when `tryProfile` returns `false` on every candidate,
`detectSettings` returns normally, without calling `os.Exit`, after exhausting
every candidate of the enumeration; all it has printed is one failure line per
candidate. It differs from every run that ends in success, which calls
`os.Exit(0)` after printing the success report, whose header line an exhausted
run never prints. No report of the exhaustion itself is printed. -/
theorem exhaustion_returns_silently (o : Oracle) (g : Globals)
    (hfail : ∀ c ∈ enumerate g, ∀ s : State, s.globals = g →
      ∃ t, tryProfile o c.appID c.appVer c.version c.noIndent s = .ret false t) :
    ∃ fs : List Failed, fs.map Failed.cand = enumerate g ∧
      detectSettings o (State.init g) = .ret () ⟨g, failedTrace g 0 fs⟩ ∧
      (printsOf (failedTrace g 0 fs)).length = (enumerate g).length ∧
      (∀ line ∈ printsOf (failedTrace g 0 fs),
        ∃ m c, c ∈ enumerate g ∧
          line = failureLine m c.appID c.appVer c.version c.noIndent g.delay) ∧
      "The following settings were found to work:\n" ∉ printsOf (failedTrace g 0 fs) ∧
      ∀ (o' : Oracle) (g' : Globals) (t : State),
        detectSettings o' (State.init g') = .exit 0 t →
        "The following settings were found to work:\n" ∈ printsOf t.trace := by
  obtain ⟨fs, hfs, hrun⟩ := detectSettings_all_fail o g hfail
  refine ⟨fs, hfs, hrun, ?_, ?_, ?_, fun o' g' t h => header_of_exit_zero o' g' t h⟩
  · rw [printsOf_failedTrace_length, ← hfs, List.length_map]
  · intro line hline
    obtain ⟨m, c, hc, hl⟩ := printsOf_failedTrace g fs 0 line hline
    exact ⟨m, c, hfs ▸ hc, hl⟩
  · intro hmem
    obtain ⟨m, c, _, hl⟩ := printsOf_failedTrace g fs 0 _ hmem
    exact failureLine_ne_header m c.appID c.appVer c.version c.noIndent g.delay hl.symm

/-- Witness of the amended C7: `rejectingServer` on the shipped catalogs. -/
theorem exhaustion_returns_silently_witness :
    ∃ fs : List Failed, fs.map Failed.cand = enumerate exampleGlobals ∧
      detectSettings rejectingServer (State.init exampleGlobals) =
        .ret () ⟨exampleGlobals, failedTrace exampleGlobals 0 fs⟩ ∧
      (printsOf (failedTrace exampleGlobals 0 fs)).length = (enumerate exampleGlobals).length ∧
      (∀ line ∈ printsOf (failedTrace exampleGlobals 0 fs),
        ∃ m c, c ∈ enumerate exampleGlobals ∧
          line = failureLine m c.appID c.appVer c.version c.noIndent exampleGlobals.delay) ∧
      "The following settings were found to work:\n" ∉
        printsOf (failedTrace exampleGlobals 0 fs) ∧
      ∀ (o' : Oracle) (g' : Globals) (t : State),
        detectSettings o' (State.init g') = .exit 0 t →
        "The following settings were found to work:\n" ∈ printsOf t.trace :=
  exhaustion_returns_silently rejectingServer exampleGlobals
    (fun c _ s _ => rejectingServer_verdict c s)

/-! ## Fatal and recoverable errors -/

theorem isFatal_failedTrace (g : Globals) (fs : List Failed) :
    ∀ n, ∀ e ∈ failedTrace g n fs, e.isFatal = false := by
  induction fs with
  | nil => intro n e h; simp [failedTrace] at h
  | cons f fs ih =>
    intro n e h
    simp only [failedTrace, List.mem_append] at h
    rcases h with h | h
    · simp [Failed.events, entryEvents, Candidate.call] at h
      rcases h with rfl | rfl | rfl | rfl | rfl | rfl | rfl <;> rfl
    · exact ih _ e h

theorem isFatal_iff (e : Event) :
    e.isFatal = true ↔
      (∃ v msg, e = .newOfxVersion v (.err msg)) ∨ ∃ msg, e = .randomUID (.err msg) := by
  cases e with
  | newOfxVersion v res => cases res <;> simp [Event.isFatal]
  | randomUID res => cases res <;> simp [Event.isFatal]
  | tryProfile a v ver b => simp [Event.isFatal]
  | request cl q ok => simp [Event.isFatal]
  | print t => simp [Event.isFatal]
  | sleep d => simp [Event.isFatal]

/-- When parsing and UID generation succeed, `tryProfile` returns. -/
theorem tryProfile_returns (o : Oracle) (c : Candidate) (s : State)
    (hparse : ∀ tr, ∃ ver, o.newOfxVersion tr c.version = .ok ver)
    (huid : ∀ tr, ∃ uid, o.randomUID tr = .ok uid) :
    ∃ b t, tryProfile o c.appID c.appVer c.version c.noIndent s = .ret b t := by
  rw [tryProfile_eq]
  obtain ⟨ver, hver⟩ := hparse (s.trace ++ [c.call])
  obtain ⟨uid, huid'⟩ := huid (s.trace ++ [c.call, .newOfxVersion c.version (.ok ver)])
  rw [hver]
  simp only
  rw [huid']
  simp only
  split
  · exact ⟨_, _, rfl⟩
  · exact ⟨_, _, rfl⟩

theorem forRange_exitCode {α : Type} (body : α → Nat → State → Result Nat) (xs : List α)
    (h : ∀ x ∈ xs, ∀ n s, (body x n s).exitCode? ≠ some 1) :
    ∀ n s, (forRange body xs n s).exitCode? ≠ some 1 := by
  induction xs with
  | nil => intro n s; simp [forRange, Result.exitCode?]
  | cons x xs ih =>
    intro n s
    have hx := h x (List.mem_cons_self _ _) n s
    rw [forRange_cons]
    cases hb : body x n s with
    | exit code t => rw [hb] at hx; exact hx
    | ret m t => exact ih (fun y hy => h y (List.mem_cons_of_mem _ hy)) m t

theorem version_mem_enumerate (g : Globals) (c : Candidate) (h : c ∈ enumerate g) :
    c.version ∈ g.versions := by
  simp only [enumerate, List.mem_flatMap, List.mem_map] at h
  obtain ⟨a, _, av, _, ver, hver, b, _, rfl⟩ := h
  exact hver

/-- C8: the run ends with `os.Exit(1)` if and only if its trace records a failed
version parse or a failed UID generation. In that case the trace is: the
candidates exhausted before, then the entry of the candidate at which the
failure happened, the collaborator calls up to the failing one, and the
diagnostic; no request is issued for that candidate, and it is not counted as a
failed attempt (the number of failure lines and of sleeps is the number of
candidates before it). Request errors never abort: when parsing succeeds on every
catalog string and UID generation always succeeds, whatever the requests return,
the run ends with `os.Exit(0)` or returns after exhausting the candidates. -/
theorem fatal_iff_parse_or_uid_fails (o : Oracle) (g : Globals) :
    ((detectSettings o (State.init g)).exitCode? = some 1 ↔
      (∃ v msg, Event.newOfxVersion v (.err msg) ∈ (detectSettings o (State.init g)).state.trace) ∨
      ∃ msg, Event.randomUID (.err msg) ∈ (detectSettings o (State.init g)).state.trace) ∧
    ((detectSettings o (State.init g)).exitCode? = some 1 →
      ∃ (fs : List Failed) (c : Candidate) (fatal : List Event),
        (detectSettings o (State.init g)).state.trace = failedTrace g 0 fs ++ fatal ∧
        ((∃ msg, fatal = [c.call, .newOfxVersion c.version (.err msg),
            .print ("Error creating new OfxVersion enum: " ++ msg ++ "\n")]) ∨
         ∃ ver msg, fatal = [c.call, .newOfxVersion c.version (.ok ver),
            .randomUID (.err msg),
            .print ("Error creating uid for transaction: " ++ msg ++ "\n")]) ∧
        callsOf (detectSettings o (State.init g)).state.trace = fs.map Failed.cand ++ [c] ∧
        requestsOf fatal = [] ∧
        exhaustedOf (detectSettings o (State.init g)).state.trace = fs.length ∧
        (sleepsOf (detectSettings o (State.init g)).state.trace).length = fs.length) ∧
    ((∀ v ∈ g.versions, ∀ tr, ∃ ver, o.newOfxVersion tr v = .ok ver) →
      (∀ tr, ∃ uid, o.randomUID tr = .ok uid) →
      (detectSettings o (State.init g)).exitCode? = some 0 ∨
      (detectSettings o (State.init g)).exitCode? = none) := by
  obtain ⟨fs, tail, htr, hcase⟩ := detectSettings_trace o g
  have hcodes : (detectSettings o (State.init g)).exitCode? = some 1 ∨
      (detectSettings o (State.init g)).exitCode? = some 0 ∨
      (detectSettings o (State.init g)).exitCode? = none := by
    rcases hcase with ⟨_, t, ht⟩ | ⟨c, st, _, t, ht⟩
    · rw [ht]; exact Or.inr (Or.inr rfl)
    · rw [ht]; cases st <;> simp [Result.exitCode?, Stop.code]
  have hfatal : (detectSettings o (State.init g)).exitCode? = some 1 →
      ∃ (c : Candidate) (fatal : List Event), tail = fatal ∧
        ((∃ msg, fatal = [c.call, .newOfxVersion c.version (.err msg),
            .print ("Error creating new OfxVersion enum: " ++ msg ++ "\n")]) ∨
         ∃ ver msg, fatal = [c.call, .newOfxVersion c.version (.ok ver),
            .randomUID (.err msg),
            .print ("Error creating uid for transaction: " ++ msg ++ "\n")]) := by
    intro h1
    rcases hcase with ⟨_, t, ht⟩ | ⟨c, st, hst, t, ht⟩
    · rw [ht] at h1; simp [Result.exitCode?] at h1
    · rw [ht] at h1
      cases st with
      | badVersion msg => exact ⟨c, tail, rfl, Or.inl ⟨msg, by rw [hst]; rfl⟩⟩
      | badUID ver msg => exact ⟨c, tail, rfl, Or.inr ⟨ver, msg, by rw [hst]; rfl⟩⟩
      | primary ver uid => simp [Result.exitCode?, Stop.code] at h1
      | anonymous ver uid => simp [Result.exitCode?, Stop.code] at h1
  refine ⟨⟨fun h1 => ?_, fun h2 => ?_⟩, fun h1 => ?_, fun hparse huid => ?_⟩
  · obtain ⟨c, fatal, rfl, hf⟩ := hfatal h1
    rw [htr]
    rcases hf with ⟨msg, rfl⟩ | ⟨ver, msg, rfl⟩
    · exact Or.inl ⟨c.version, msg, by simp⟩
    · exact Or.inr ⟨msg, by simp⟩
  · have hex : ∃ e ∈ (detectSettings o (State.init g)).state.trace, e.isFatal = true := by
      rcases h2 with ⟨v, msg, h⟩ | ⟨msg, h⟩
      · exact ⟨_, h, rfl⟩
      · exact ⟨_, h, rfl⟩
    obtain ⟨e, he, hfat⟩ := hex
    rw [htr, List.mem_append] at he
    rcases he with he | he
    · rw [isFatal_failedTrace g fs 0 e he] at hfat
      exact absurd hfat (by simp)
    · rcases hcase with ⟨rfl, _⟩ | ⟨c, st, rfl, t, ht⟩
      · simp at he
      · rw [ht]
        cases st with
        | badVersion msg => rfl
        | badUID ver msg => rfl
        | primary ver uid =>
          simp [Stop.events, entryEvents, successReport, Candidate.call] at he
          rcases he with rfl | rfl | rfl | rfl | rfl | rfl | rfl | rfl | rfl <;>
            simp [Event.isFatal] at hfat
        | anonymous ver uid =>
          simp [Stop.events, entryEvents, successReport, Candidate.call] at he
          rcases he with rfl | rfl | rfl | rfl | rfl | rfl | rfl | rfl | rfl | rfl <;>
            simp [Event.isFatal] at hfat
  · obtain ⟨c, fatal, rfl, hf⟩ := hfatal h1
    refine ⟨fs, c, tail, htr, hf, ?_, ?_, ?_, ?_⟩
    · rw [htr, callsOf_append, callsOf_failedTrace]
      rcases hf with ⟨msg, rfl⟩ | ⟨ver, msg, rfl⟩ <;> simp [callsOf, Candidate.call]
    · rcases hf with ⟨msg, rfl⟩ | ⟨ver, msg, rfl⟩ <;> simp [requestsOf, Candidate.call]
    · rw [htr, exhaustedOf_failedTrace]
      rcases hf with ⟨msg, rfl⟩ | ⟨ver, msg, rfl⟩ <;> simp [exhaustedOf, Candidate.call]
    · rw [htr, sleepsOf_append, sleepsOf_failedTrace]
      rcases hf with ⟨msg, rfl⟩ | ⟨ver, msg, rfl⟩ <;> simp [sleepsOf, Candidate.call]
  · have hne : (detectSettings o (State.init g)).exitCode? ≠ some 1 := by
      have hloop := forRange_exitCode (candBody o) (enumerate g) (fun c hc n s => by
        obtain ⟨b, t, hbt⟩ := tryProfile_returns o c s
          (fun tr => hparse c.version (version_mem_enumerate g c hc) tr) huid
        rcases candBody_step o c n s with ⟨st, h1, h2⟩ | ⟨ver, uid, _, h2⟩
        · rw [h2]
          rw [hbt] at h1
          cases st <;> simp [Stop.tryResult, Result.exitCode?, Stop.code] at h1 ⊢
        · rw [h2]; simp [Result.exitCode?]) 0 (State.init g)
      rw [detectSettings_eq]
      cases hr : forRange (candBody o) (enumerate g) 0 (State.init g) with
      | exit code t =>
        rw [hr] at hloop
        simpa [Result.exitCode?] using hloop
      | ret m t => simp [Result.exitCode?]
    rcases hcodes with h | h | h
    · exact absurd h hne
    · exact Or.inl h
    · exact Or.inr h

/-- Witness of C8: under `noIndentServer` parsing and UID generation always
succeed, and the run on the shipped catalogs does not abort. -/
theorem fatal_iff_parse_or_uid_fails_witness :
    (∀ v ∈ exampleGlobals.versions, ∀ tr, ∃ ver, noIndentServer.newOfxVersion tr v = .ok ver) ∧
    (∀ tr, ∃ uid, noIndentServer.randomUID tr = .ok uid) ∧
    ((detectSettings noIndentServer (State.init exampleGlobals)).exitCode? = some 0 ∨
      (detectSettings noIndentServer (State.init exampleGlobals)).exitCode? = none) :=
  ⟨fun v _ _ => ⟨v.length, rfl⟩, fun _ => ⟨"5b7f9c1e", rfl⟩,
   (fatal_iff_parse_or_uid_fails noIndentServer exampleGlobals).2.2
     (fun v _ _ => ⟨v.length, rfl⟩) (fun _ => ⟨"5b7f9c1e", rfl⟩)⟩

/-! ## The inputs are read only -/

theorem tryProfile_globals (o : Oracle) (c : Candidate) (s : State) :
    (tryProfile o c.appID c.appVer c.version c.noIndent s).state.globals = s.globals := by
  rcases candBody_step o c 0 s with ⟨st, h, _⟩ | ⟨ver, uid, h, _⟩
  · rw [h]; cases st <;> rfl
  · rw [h]; rfl

theorem chain_failedEvents (g : Globals) (n : Nat) (f : Failed) :
    List.Chain' (FirstRequestPrimary g) (f.events g n) := by
  simp [Failed.events, entryEvents, Candidate.call, FirstRequestPrimary, primaryQuery]

theorem chain_stopEvents (g : Globals) (c : Candidate) (st : Stop) :
    List.Chain' (FirstRequestPrimary g) (st.events g c) := by
  cases st <;>
    simp [Stop.events, entryEvents, successReport, Candidate.call, FirstRequestPrimary,
      primaryQuery]

theorem chain_failedTrace (g : Globals) (tail : List Event)
    (htail : List.Chain' (FirstRequestPrimary g) tail) (fs : List Failed) :
    ∀ n, List.Chain' (FirstRequestPrimary g) (failedTrace g n fs ++ tail) := by
  induction fs with
  | nil => intro n; simpa [failedTrace] using htail
  | cons f fs ih =>
    intro n
    rw [failedTrace, List.append_assoc]
    refine List.Chain'.append (chain_failedEvents g _ f) (ih _) ?_
    intro x hx y _ res cl q ok hres _
    simp [Failed.events, entryEvents] at hx
    rw [← hx] at hres
    simp at hres

/-- C9: the inputs are never written. After `detectSettings`, and after every
call of `tryProfile`, the package-level variables (server URL, user name,
password, org, fid, client UID, delay and the catalogs) have the values they had
before; and in every run, each request that directly follows a UID generation,
that is, the first request of each candidate, carries the original server URL,
user name, password, org, fid and client UID, whatever anonymous substitutions
were made for earlier candidates. -/
theorem inputs_never_mutated (o : Oracle) (g : Globals) :
    (detectSettings o (State.init g)).state.globals = g ∧
    (∀ (appID appVer version : String) (noindent : Bool) (s : State),
      (tryProfile o appID appVer version noindent s).state.globals = s.globals) ∧
    ∀ (pre post : List Event) (res : Res UID) (cl : Client) (q : Request) (ok : Bool),
      (detectSettings o (State.init g)).state.trace =
        pre ++ .randomUID res :: .request cl q ok :: post →
      q.URL = g.serverURL ∧ q.Signon.UserID = g.username ∧ q.Signon.UserPass = g.password ∧
        q.Signon.Org = g.org ∧ q.Signon.Fid = g.fid ∧ q.Signon.ClientUID = g.clientUID := by
  refine ⟨?_, fun a v ver b s => tryProfile_globals o ⟨a, v, ver, b⟩ s, ?_⟩
  · obtain ⟨r, hr, _⟩ := detectSettings_shape o (State.init g)
    rw [hr]
    cases r.last <;> rfl
  · intro pre post res cl q ok h
    obtain ⟨fs, tail, htr, hcase⟩ := detectSettings_trace o g
    have htail : List.Chain' (FirstRequestPrimary g) tail := by
      rcases hcase with ⟨rfl, _⟩ | ⟨c, st, rfl, _⟩
      · exact List.chain'_nil
      · exact chain_stopEvents g c st
    have hchain := chain_failedTrace g tail htail fs 0
    rw [← htr, h] at hchain
    exact (List.chain'_append_cons_cons.mp hchain).2.1 res cl q ok rfl rfl

/-- Witness of C9: in the run against `noIndentServer` the first candidate is
retried with the anonymous credentials, and the first request of the second
candidate carries the original ones again. -/
theorem inputs_never_mutated_witness :
    (detectSettings noIndentServer (State.init exampleGlobals)).state.trace =
      (Failed.events exampleGlobals 1 ⟨⟨"OFXGO", "0001", "203", false⟩, 3, "5b7f9c1e"⟩ ++
        [Event.tryProfile "OFXGO" "0001" "203" true, .newOfxVersion "203" (.ok 3)]) ++
      .randomUID (.ok "5b7f9c1e") ::
      .request (clientOf exampleGlobals ⟨"OFXGO", "0001", "203", true⟩ 3)
        (primaryQuery exampleGlobals "5b7f9c1e") true ::
      successReport ⟨"OFXGO", "0001", "203", true⟩ ∧
    (primaryQuery exampleGlobals "5b7f9c1e").Signon.UserID = "alice" ∧
    (primaryQuery exampleGlobals "5b7f9c1e").Signon.UserPass = "secret" :=
  have h : (detectSettings noIndentServer (State.init exampleGlobals)).state.trace =
      (Failed.events exampleGlobals 1 ⟨⟨"OFXGO", "0001", "203", false⟩, 3, "5b7f9c1e"⟩ ++
        [Event.tryProfile "OFXGO" "0001" "203" true, .newOfxVersion "203" (.ok 3)]) ++
      .randomUID (.ok "5b7f9c1e") ::
      .request (clientOf exampleGlobals ⟨"OFXGO", "0001", "203", true⟩ 3)
        (primaryQuery exampleGlobals "5b7f9c1e") true ::
      successReport ⟨"OFXGO", "0001", "203", true⟩ := by
    decide
  have hw := (inputs_never_mutated noIndentServer exampleGlobals).2.2 _ _ _ _ _ _ h
  ⟨h, hw.2.1, hw.2.2.1⟩

/-! ## The shipped catalogs -/

/-- C10: the application-version catalog is newest first. For every entry of
`appIDs`, the list `appVersions[appID]` is not empty, each of its strings reads as
a decimal integer, and these integers are strictly decreasing. -/
theorem appVersions_newest_first (appID : String) (h : appID ∈ appIDs) :
    mapIndex appVersions appID ≠ [] ∧
    ∃ ns : List Nat,
      (mapIndex appVersions appID).map readDecimal = ns.map some ∧
      ns.Pairwise (fun newer older => newer > older) := by
  simp only [appIDs, List.mem_cons, List.mem_singleton, List.not_mem_nil, or_false] at h
  rcases h with rfl | rfl | rfl | rfl | rfl
  · exact ⟨by decide, [1], by decide, by decide⟩
  · exact ⟨by decide,
      [2600, 2500, 2400, 2300, 2200, 2100, 2000, 1900, 1800, 1700, 1600, 1500, 1400],
      by decide, by decide⟩
  · exact ⟨by decide, [1700, 1600, 1500, 1400], by decide, by decide⟩
  · exact ⟨by decide, [1800, 1700, 1600, 1500], by decide, by decide⟩
  · exact ⟨by decide, [1600, 1500, 1400, 1200, 1100], by decide, by decide⟩

/-- Witness of C10 at the entry `QWIN` of `appIDs`. -/
theorem appVersions_newest_first_witness :
    "QWIN" ∈ appIDs ∧ mapIndex appVersions "QWIN" ≠ [] ∧
    ∃ ns : List Nat,
      (mapIndex appVersions "QWIN").map readDecimal = ns.map some ∧
      ns.Pairwise (fun newer older => newer > older) :=
  ⟨by decide, appVersions_newest_first "QWIN" (by decide)⟩

/-! ## Numbering of the failed attempts -/

theorem bump_of_small : ∀ (k n : Nat), n + k < 2 ^ 64 → bump k n = n + k := by
  intro k
  induction k with
  | zero => intro n _; rfl
  | succ k ih =>
    intro n h
    have h1 : uintSucc n = n + 1 := Nat.mod_eq_of_lt (by omega)
    rw [bump_succ, h1, ih (n + 1) (by omega)]
    omega

theorem failureLinesOf_failedTrace (g : Globals) (tail : List Event) (fs : List Failed) :
    ∀ n, failureLinesOf (failedTrace g n fs ++ tail) =
      failureLinesFrom g n (fs.map Failed.cand) ++ failureLinesOf tail := by
  induction fs with
  | nil => intro n; simp [failedTrace, failureLinesFrom]
  | cons f fs ih =>
    intro n
    simp only [failedTrace, Failed.events, entryEvents, Candidate.call, List.append_assoc,
      List.cons_append, List.nil_append, List.map_cons, failureLinesFrom]
    simp only [failureLinesOf]
    rw [ih]

theorem failureLinesOf_stopEvents (g : Globals) (c : Candidate) (st : Stop) :
    failureLinesOf (st.events g c) = [] := by
  cases st <;> simp [Stop.events, entryEvents, successReport, Candidate.call, failureLinesOf]

theorem length_failureLinesFrom (g : Globals) (cs : List Candidate) :
    ∀ n, (failureLinesFrom g n cs).length = cs.length := by
  induction cs with
  | nil => intro n; rfl
  | cons c cs ih => intro n; simp [failureLinesFrom, ih]

theorem getElem?_failureLinesFrom (g : Globals) (cs : List Candidate) :
    ∀ (n i : Nat) (line : String), (failureLinesFrom g n cs)[i]? = some line →
      ∃ c, cs[i]? = some c ∧
        line = failureLine (bump (i + 1) n) c.appID c.appVer c.version c.noIndent g.delay := by
  induction cs with
  | nil => intro n i line h; simp [failureLinesFrom] at h
  | cons c cs ih =>
    intro n i line h
    cases i with
    | zero =>
      simp only [failureLinesFrom, List.getElem?_cons_zero, Option.some.injEq] at h
      exact ⟨c, by simp, by rw [← h]; rfl⟩
    | succ i =>
      simp only [failureLinesFrom, List.getElem?_cons_succ] at h
      obtain ⟨c', hc', hl⟩ := ih (uintSucc n) i line h
      exact ⟨c', by simpa using hc', by rw [hl]; rfl⟩

/-- Trace of `detectSettings` from the initial state: exhausted candidates that
form a prefix of the enumeration, then the events of the candidate that
stopped the run, if any. -/
theorem detectSettings_trace_prefix (o : Oracle) (g : Globals) :
    ∃ (fs : List Failed) (tail : List Event) (rest : List Candidate),
      (detectSettings o (State.init g)).state.trace = failedTrace g 0 fs ++ tail ∧
      ((tail = [] ∧ enumerate g = fs.map Failed.cand) ∨
       ∃ c st, tail = Stop.events g c st ∧ enumerate g = fs.map Failed.cand ++ c :: rest) := by
  obtain ⟨r, hr, rest, hcs, hrest⟩ := detectSettings_shape o (State.init g)
  cases hl : r.last with
  | none =>
    refine ⟨r.failed, [], [], ?_, Or.inl ⟨rfl, ?_⟩⟩
    · rw [hr]; simp [hl, Result.state, State.init, RunLog.events]
    · have := hrest hl
      subst this
      simpa [RunLog.cands, hl, State.init] using hcs
  | some p =>
    obtain ⟨c, st⟩ := p
    refine ⟨r.failed, st.events g c, rest, ?_, Or.inr ⟨c, st, rfl, ?_⟩⟩
    · rw [hr]; simp [hl, Result.state, State.init, RunLog.events]
    · simpa [RunLog.cands, hl, State.init] using hcs

/-- C11: each candidate whose two requests both failed is recorded as exactly
one failed attempt. In every run over an enumeration of fewer than `2 ^ 64`
candidates, the number of failure lines is the number of candidates whose two
requests both failed, and for every `n` from 1 the `n`-th failure line carries
the attempt number `n`, the appID, appVersion and spec version of the `n`-th
candidate of the enumeration, the marker ` noindent` exactly when the flag of
that candidate is set, and the configured delay. -/
theorem failure_lines_numbered (o : Oracle) (g : Globals)
    (hsize : (enumerate g).length < 2 ^ 64) :
    (failureLinesOf (detectSettings o (State.init g)).state.trace).length =
      exhaustedOf (detectSettings o (State.init g)).state.trace ∧
    ∀ (n : Nat) (line : String), 0 < n →
      (failureLinesOf (detectSettings o (State.init g)).state.trace)[n - 1]? = some line →
      ∃ c : Candidate, (enumerate g)[n - 1]? = some c ∧
        line = "Attempt " ++ toString n ++ " failed (" ++ c.appID ++ " " ++ c.appVer ++ " "
          ++ c.version ++ (if c.noIndent then " noindent" else "")
          ++ "), trying again after " ++ toString g.delay ++ "ms...\n" := by
  obtain ⟨fs, tail, rest, htr, hcase⟩ := detectSettings_trace_prefix o g
  have htail : failureLinesOf tail = [] ∧ exhaustedOf tail = 0 := by
    rcases hcase with ⟨rfl, _⟩ | ⟨c, st, rfl, _⟩
    · exact ⟨rfl, rfl⟩
    · exact ⟨failureLinesOf_stopEvents g c st, exhaustedOf_stopEvents g c st⟩
  have hpre : ∃ more, enumerate g = fs.map Failed.cand ++ more := by
    rcases hcase with ⟨_, h⟩ | ⟨c, st, _, h⟩
    · exact ⟨[], by simpa using h⟩
    · exact ⟨c :: rest, h⟩
  obtain ⟨more, hmore⟩ := hpre
  have hlines : failureLinesOf (detectSettings o (State.init g)).state.trace =
      failureLinesFrom g 0 (fs.map Failed.cand) := by
    rw [htr, failureLinesOf_failedTrace, htail.1, List.append_nil]
  constructor
  · rw [hlines, length_failureLinesFrom, htr, exhaustedOf_failedTrace, htail.2]
    simp
  · intro n line hn hline
    rw [hlines] at hline
    obtain ⟨c, hc, hl⟩ := getElem?_failureLinesFrom g _ 0 (n - 1) line hline
    have hlt : n - 1 < (fs.map Failed.cand).length := (List.getElem?_eq_some.mp hc).1
    have hlen : (fs.map Failed.cand).length ≤ (enumerate g).length := by
      rw [hmore, List.length_append]; omega
    refine ⟨c, ?_, ?_⟩
    · rw [hmore, List.getElem?_append_left hlt]
      exact hc
    · have hb : bump (n - 1 + 1) 0 = n := by
        rw [bump_of_small _ _ (by omega)]
        omega
      rw [hl, hb]
      rfl

/-- Witness of C11: against `noIndentServer` on the shipped catalogs the first
failure line is numbered 1 and names the first candidate, whose flag is unset. -/
theorem failure_lines_numbered_witness :
    (enumerate exampleGlobals).length < 2 ^ 64 ∧
    (failureLinesOf (detectSettings noIndentServer (State.init exampleGlobals)).state.trace)[1 - 1]?
      = some "Attempt 1 failed (OFXGO 0001 203), trying again after 500ms...\n" ∧
    ∃ c : Candidate, (enumerate exampleGlobals)[1 - 1]? = some c ∧
      "Attempt 1 failed (OFXGO 0001 203), trying again after 500ms...\n" =
        "Attempt " ++ toString 1 ++ " failed (" ++ c.appID ++ " " ++ c.appVer ++ " "
          ++ c.version ++ (if c.noIndent then " noindent" else "")
          ++ "), trying again after " ++ toString exampleGlobals.delay ++ "ms...\n" :=
  ⟨by decide, by decide,
   (failure_lines_numbered noIndentServer exampleGlobals (by decide)).2 1 _ (by decide)
     (by decide)⟩

/-! ## Size of a run on the shipped catalogs -/

theorem enumerate_startup (serverURL username password org fid clientUID : String)
    (delay : Nat) :
    enumerate (Globals.startup serverURL username password org fid clientUID delay) =
      enumerate exampleGlobals := rfl

theorem requestsOf_stopEvents_length (g : Globals) (c : Candidate) (st : Stop) :
    (requestsOf (st.events g c)).length ≤ 2 := by
  cases st <;> simp [Stop.events, entryEvents, successReport, Candidate.call, requestsOf]

/-- When every request fails while parsing and UID generation succeed,
`tryProfile` returns `false`. -/
theorem tryProfile_false_of_requests_fail (o : Oracle) (c : Candidate) (s : State)
    (hreq : ∀ tr cl q, o.request tr cl q = false)
    (hparse : ∀ tr, ∃ ver, o.newOfxVersion tr c.version = .ok ver)
    (huid : ∀ tr, ∃ uid, o.randomUID tr = .ok uid) :
    ∃ t, tryProfile o c.appID c.appVer c.version c.noIndent s = .ret false t := by
  rw [tryProfile_eq]
  obtain ⟨ver, hver⟩ := hparse (s.trace ++ [c.call])
  obtain ⟨uid, huid'⟩ := huid (s.trace ++ [c.call, .newOfxVersion c.version (.ok ver)])
  rw [hver]
  simp only
  rw [huid']
  simp [hreq]

theorem last_shipped_candidate :
    (enumerate exampleGlobals)[593]? = some ⟨"Money", "1100", "220", true⟩ := by decide

theorem failureLine_last (delay : Nat) :
    failureLine 594 "Money" "1100" "220" true delay =
      "Attempt 594 failed (Money 1100 220 noindent), trying again after " ++ toString delay
        ++ "ms...\n" := by
  have h594 : toString 594 = "594" := by decide
  unfold failureLine
  simp only [h594, if_true]
  generalize toString delay = d
  apply String.ext
  simp [String.data_append]

/-- C12: every run on the shipped catalogs ends (it returns, or leaves with
status 0 or 1) and is bounded by the catalogs. The enumeration has exactly
594 = (1 + 13 + 4 + 4 + 5) * 11 * 2 candidates, so a run calls `tryProfile` at
most 594 times, issues at most 1188 requests and sleeps at most 594 times. When
every request fails while parsing and UID generation succeed, the run returns
after exactly 1188 requests, 594 failure lines (its only output), the last one
numbered 594 and naming the last candidate, and 594 sleeps. -/
theorem shipped_run_bounded (o : Oracle) (url user pass org fid cuid : String) (delay : Nat) :
    ((∃ t, shippedRun o url user pass org fid cuid delay = .ret () t) ∨
      (∃ t, shippedRun o url user pass org fid cuid delay = .exit 0 t) ∨
      ∃ t, shippedRun o url user pass org fid cuid delay = .exit 1 t) ∧
    (enumerate (Globals.startup url user pass org fid cuid delay)).length = 594 ∧
    appIDs.map (fun appID => (mapIndex appVersions appID).length) = [1, 13, 4, 4, 5] ∧
    versions.length = 11 ∧ (1 + 13 + 4 + 4 + 5) * 11 * 2 = 594 ∧
    (callsOf (shippedRun o url user pass org fid cuid delay).state.trace).length ≤ 594 ∧
    (requestsOf (shippedRun o url user pass org fid cuid delay).state.trace).length ≤ 1188 ∧
    (sleepsOf (shippedRun o url user pass org fid cuid delay).state.trace).length ≤ 594 ∧
    ((∀ tr cl q, o.request tr cl q = false) →
      (∀ v ∈ versions, ∀ tr, ∃ ver, o.newOfxVersion tr v = .ok ver) →
      (∀ tr, ∃ uid, o.randomUID tr = .ok uid) →
      (∃ t, shippedRun o url user pass org fid cuid delay = .ret () t) ∧
      (requestsOf (shippedRun o url user pass org fid cuid delay).state.trace).length = 1188 ∧
      (failureLinesOf (shippedRun o url user pass org fid cuid delay).state.trace).length = 594 ∧
      (printsOf (shippedRun o url user pass org fid cuid delay).state.trace).length = 594 ∧
      (failureLinesOf (shippedRun o url user pass org fid cuid delay).state.trace).getLast? =
        some ("Attempt 594 failed (Money 1100 220 noindent), trying again after "
          ++ toString delay ++ "ms...\n") ∧
      (sleepsOf (shippedRun o url user pass org fid cuid delay).state.trace).length = 594) := by
  have hlen : (enumerate (Globals.startup url user pass org fid cuid delay)).length = 594 := by
    rw [enumerate_startup]; exact length_enumerate_shipped
  unfold shippedRun
  obtain ⟨fs, tail, rest, htr, hcase⟩ :=
    detectSettings_trace_prefix o (Globals.startup url user pass org fid cuid delay)
  obtain ⟨fs', tail', _, hcase'⟩ :=
    detectSettings_trace o (Globals.startup url user pass org fid cuid delay)
  refine ⟨?_, hlen, by decide, by decide, by decide, ?_, ?_, ?_, ?_⟩
  · rcases hcase' with ⟨_, t, ht⟩ | ⟨c, st, _, t, ht⟩
    · exact Or.inl ⟨t, ht⟩
    · cases st with
      | badVersion msg => exact Or.inr (Or.inr ⟨t, ht⟩)
      | badUID ver msg => exact Or.inr (Or.inr ⟨t, ht⟩)
      | primary ver uid => exact Or.inr (Or.inl ⟨t, ht⟩)
      | anonymous ver uid => exact Or.inr (Or.inl ⟨t, ht⟩)
  · rw [htr, callsOf_append, callsOf_failedTrace, List.length_append, List.length_map]
    rcases hcase with ⟨rfl, h⟩ | ⟨c, st, rfl, h⟩
    · have := congrArg List.length h
      simp only [List.length_map] at this
      simp [callsOf]
      omega
    · have := congrArg List.length h
      simp only [List.length_map, List.length_append, List.length_cons] at this
      rw [callsOf_stopEvents]
      simp
      omega
  · rw [htr, requestsOf_append, List.length_append, requestsOf_failedTrace_length]
    rcases hcase with ⟨rfl, h⟩ | ⟨c, st, rfl, h⟩
    · have := congrArg List.length h
      simp only [List.length_map] at this
      simp [requestsOf]
      omega
    · have := congrArg List.length h
      simp only [List.length_map, List.length_append, List.length_cons] at this
      have h2 := requestsOf_stopEvents_length
        (Globals.startup url user pass org fid cuid delay) c st
      omega
  · rw [htr, sleepsOf_append, List.length_append, sleepsOf_failedTrace, List.length_replicate]
    rcases hcase with ⟨rfl, h⟩ | ⟨c, st, rfl, h⟩
    · have := congrArg List.length h
      simp only [List.length_map] at this
      simp [sleepsOf]
      omega
    · have := congrArg List.length h
      simp only [List.length_map, List.length_append, List.length_cons] at this
      rw [sleepsOf_stopEvents]
      simp
      omega
  · intro hreq hparse huid
    obtain ⟨gs, hgs, hrun⟩ := detectSettings_all_fail o
      (Globals.startup url user pass org fid cuid delay)
      (fun c hc s _ => tryProfile_false_of_requests_fail o c s hreq
        (fun tr => hparse c.version (version_mem_enumerate _ c hc) tr) huid)
    have hglen : gs.length = 594 := by
      rw [← hlen, ← hgs, List.length_map]
    have hlines : failureLinesOf
        (failedTrace (Globals.startup url user pass org fid cuid delay) 0 gs) =
        failureLinesFrom (Globals.startup url user pass org fid cuid delay) 0
          (enumerate exampleGlobals) := by
      have := failureLinesOf_failedTrace
        (Globals.startup url user pass org fid cuid delay) [] gs 0
      simp only [List.append_nil] at this
      rw [this, hgs, enumerate_startup]
      rfl
    rw [hrun]
    simp only [Result.state]
    refine ⟨⟨_, rfl⟩, ?_, ?_, ?_, ?_, ?_⟩
    · rw [requestsOf_failedTrace_length, hglen]
    · rw [hlines, length_failureLinesFrom, length_enumerate_shipped]
    · rw [printsOf_failedTrace_length, hglen]
    · rw [hlines, List.getLast?_eq_getElem?, length_failureLinesFrom,
        length_enumerate_shipped]
      have hsome : ∃ line, (failureLinesFrom
          (Globals.startup url user pass org fid cuid delay) 0
          (enumerate exampleGlobals))[594 - 1]? = some line := by
        have hlt : 594 - 1 < (failureLinesFrom
            (Globals.startup url user pass org fid cuid delay) 0
            (enumerate exampleGlobals)).length := by
          rw [length_failureLinesFrom, length_enumerate_shipped]; omega
        exact ⟨_, List.getElem?_eq_getElem hlt⟩
      obtain ⟨line, hline⟩ := hsome
      obtain ⟨c, hc, hl⟩ := getElem?_failureLinesFrom _ _ 0 (594 - 1) line hline
      have hc2 : c = ⟨"Money", "1100", "220", true⟩ := by
        have := last_shipped_candidate
        rw [show 594 - 1 = 593 from rfl] at hc
        rw [this] at hc
        exact (Option.some.inj hc).symm
      subst hc2
      rw [hline, hl]
      have hb : bump (594 - 1 + 1) 0 = 594 := by decide
      rw [hb, failureLine_last]
      rfl
    · rw [sleepsOf_failedTrace, List.length_replicate, hglen]

/-- Witness of C12: `rejectingServer` fails every request while parsing and UID
generation succeed. -/
theorem shipped_run_bounded_witness :
    (∀ tr cl q, rejectingServer.request tr cl q = false) ∧
    (∀ v ∈ versions, ∀ tr, ∃ ver, rejectingServer.newOfxVersion tr v = .ok ver) ∧
    (∀ tr, ∃ uid, rejectingServer.randomUID tr = .ok uid) ∧
    (requestsOf (shippedRun rejectingServer "https://ofx.example.com/ofx" "alice" "secret"
      "ORG" "1234" "" 500).state.trace).length = 1188 ∧
    (failureLinesOf (shippedRun rejectingServer "https://ofx.example.com/ofx" "alice" "secret"
      "ORG" "1234" "" 500).state.trace).getLast? =
        some ("Attempt 594 failed (Money 1100 220 noindent), trying again after "
          ++ toString 500 ++ "ms...\n") ∧
    (sleepsOf (shippedRun rejectingServer "https://ofx.example.com/ofx" "alice" "secret"
      "ORG" "1234" "" 500).state.trace).length = 594 :=
  have hw := (shipped_run_bounded rejectingServer "https://ofx.example.com/ofx" "alice" "secret"
    "ORG" "1234" "" 500).2.2.2.2.2.2.2.2 (fun _ _ _ => rfl) (fun v _ _ => ⟨v.length, rfl⟩)
    (fun _ => ⟨"5b7f9c1e", rfl⟩)
  ⟨fun _ _ _ => rfl, fun v _ _ => ⟨v.length, rfl⟩, fun _ => ⟨"5b7f9c1e", rfl⟩,
   hw.2.1, hw.2.2.2.2.1, hw.2.2.2.2.2⟩

/-! ## No candidate is tried twice -/

/-- The calls of a run follow the enumeration from its start. -/
theorem calls_follow_enumeration (o : Oracle) (g : Globals) :
    callsOf (detectSettings o (State.init g)).state.trace <+: enumerate g := by
  obtain ⟨fs, tail, rest, htr, hcase⟩ := detectSettings_trace_prefix o g
  rw [htr, callsOf_append, callsOf_failedTrace]
  rcases hcase with ⟨rfl, h⟩ | ⟨c, st, rfl, h⟩
  · exact ⟨[], by simp [callsOf, h]⟩
  · exact ⟨rest, by rw [callsOf_stopEvents, h]; simp⟩

/-- A concatenation of duplicate-free lists indexed by a duplicate-free list is
duplicate-free when each element records the index it comes from. -/
theorem nodup_flatMap_of_tag {α β : Type} (l : List α) (f : α → List β) (tag : β → α)
    (hl : l.Nodup) (hf : ∀ x ∈ l, (f x).Nodup) (htag : ∀ x, ∀ b ∈ f x, tag b = x) :
    (l.flatMap f).Nodup := by
  refine List.nodup_flatMap.2 ⟨hf, ?_⟩
  refine List.Pairwise.imp ?_ hl
  intro a b hne x hxa hxb
  exact hne ((htag a x hxa).symm.trans (htag b x hxb))

/-- The enumeration has no duplicates when the catalogs have none. -/
theorem enumerate_nodup (g : Globals) (h1 : g.appIDs.Nodup)
    (h2 : ∀ a ∈ g.appIDs, (mapIndex g.appVersions a).Nodup) (h3 : g.versions.Nodup) :
    (enumerate g).Nodup := by
  unfold enumerate
  refine nodup_flatMap_of_tag _ _ Candidate.appID h1 (fun a ha => ?_) ?_
  · refine nodup_flatMap_of_tag _ _ Candidate.appVer (h2 a ha) (fun av _ => ?_) ?_
    · refine nodup_flatMap_of_tag _ _ Candidate.version h3 (fun ver _ => ?_) ?_
      · simp
      · intro ver c hc
        simp at hc
        rcases hc with rfl | rfl <;> rfl
    · intro av c hc
      simp only [List.mem_flatMap, List.mem_map] at hc
      obtain ⟨ver, _, b, _, rfl⟩ := hc
      rfl
  · intro a c hc
    simp only [List.mem_flatMap, List.mem_map] at hc
    obtain ⟨av, _, ver, _, b, _, rfl⟩ := hc
    rfl

/-- C13: the shipped catalogs are well formed. `appIDs` has no duplicates; the
keys of `appVersions` are distinct and are exactly the entries of `appIDs`, each
with a non-empty version list; every version list and `versions` have no
duplicates. Hence the enumeration has pairwise distinct candidates, and in
every run on the shipped catalogs no candidate is passed to `tryProfile`
twice. -/
theorem shipped_catalogs_well_formed :
    appIDs.Nodup ∧
    (appVersions.map Prod.fst).Nodup ∧
    (∀ key : String, key ∈ appVersions.map Prod.fst ↔ key ∈ appIDs) ∧
    (∀ appID ∈ appIDs, mapIndex appVersions appID ≠ []) ∧
    (∀ entry ∈ appVersions, entry.2.Nodup) ∧
    versions.Nodup ∧
    (∀ (url user pass org fid cuid : String) (delay : Nat),
      (enumerate (Globals.startup url user pass org fid cuid delay)).Nodup) ∧
    ∀ (o : Oracle) (url user pass org fid cuid : String) (delay : Nat),
      (callsOf (shippedRun o url user pass org fid cuid delay).state.trace).Nodup := by
  have hids : appIDs.Nodup := by decide
  have hvers : versions.Nodup := by decide
  have hlists : ∀ a ∈ appIDs, (mapIndex appVersions a).Nodup := by decide
  have henum : ∀ (url user pass org fid cuid : String) (delay : Nat),
      (enumerate (Globals.startup url user pass org fid cuid delay)).Nodup :=
    fun url user pass org fid cuid delay =>
      enumerate_nodup (Globals.startup url user pass org fid cuid delay) hids hlists hvers
  refine ⟨hids, by decide, ?_, by decide, by decide, hvers, henum, ?_⟩
  · intro key
    simp [appVersions, appIDs]
  · intro o url user pass org fid cuid delay
    exact List.Nodup.sublist
      (calls_follow_enumeration o
        (Globals.startup url user pass org fid cuid delay)).sublist
      (henum url user pass org fid cuid delay)

end Ofx
